import Mathlib

/-!
# A shallow embedding of the C64 text scroller (`src/main.cc`)

The program is one class, `Scroller`, whose constructor clears character RAM
and installs `scroll` as the raster interrupt handler.  The embedding keeps

* the 64K address space as a map from addresses to cell contents,
* the class statics `Message` and `Len`,
* the function statics `offset` (an `int8_t`) and `nextchar` (a `uint8_t`),
* the processor's interrupt-disable flag (`sei` / `cli`),
* a log of every memory access, newest first.

Memory-mapped registers are storage cells: a load returns the value stored
last.  The one exception is `$D012`, whose load returns the current raster
line; that value is an input of each handler invocation, while the cell
`$D012` of the map holds the compare value written last.

`Message` points to the caller's character array, an object of its own that
lies neither in character RAM nor in the I/O area; it is kept as the list of
the array's bytes.  Values the program computes before a store are reduced
modulo 256 where they are computed; values copied from cell to cell, or from
`Message`, are stored as they are.  The target's `int` has 16 bits: `Len` and the
constructor's `lLen` are integers, and the one `int` operation of the program that
can leave the range, `lLen - 1` at `lLen = INT_MIN`, wraps around.
-/

namespace C64

/-- One memory access of the program. -/
inductive Access where
  | load (addr : Nat)
  | store (addr val : Nat)
  | fetch (idx : Nat)
  deriving DecidableEq, Repr

/-- Machine and program state. -/
structure State where
  mem : Nat → Nat
  Message : List Nat
  Len : Int
  offset : Int
  nextchar : Nat
  irqOff : Bool
  trace : List Access

/-- Location of character RAM. -/
def DEFAULT_SCREEN : Nat := 0x0400
/-- Interrupt Control and Status Register, CIA1. -/
def InterCtrl1 : Nat := 0xDC0D
/-- Interrupt Control and Status Register, CIA2. -/
def InterCtrl2 : Nat := 0xDD0D
/-- Interrupt Control Register of the video chip. -/
def InterCtrl : Nat := 0xD01A
/-- Interrupt Status Register of the video chip. -/
def InterStat : Nat := 0xD019
/-- Screen Control Register #1. -/
def ScrCtrl1 : Nat := 0xD011
/-- Screen Control Register #2. -/
def ScrCtrl2 : Nat := 0xD016
/-- Raster register: read gives the current line, write sets the compare line. -/
def RasterLine1 : Nat := 0xD012

/-- Conversion of an integer to `int8_t` (two's complement wrap-around). -/
def toInt8 (x : Int) : Int := (x + 128) % 256 - 128

/-- A store of `v` to the cell at address `a`. -/
def poke (a v : Nat) (s : State) : State :=
  { s with mem := fun x => if x = a then v else s.mem x,
           trace := Access.store a v :: s.trace }

/-- A load from the cell at address `a` (the value is `s.mem a`). -/
def touch (a : Nat) (s : State) : State :=
  { s with trace := Access.load a :: s.trace }

/-- The library call `memset(p, c, n)`: `n` cells from `p` get the byte `c`. -/
def memset (p c n : Nat) (s : State) : State :=
  (List.range n).foldl (fun st i => poke (p + i) (c % 256) st) s

/-- The member `clear_screen`: 25 rows of 40 columns are filled with spaces. -/
def clear_screen (s : State) : State :=
  memset DEFAULT_SCREEN 0x20 (40 * 25) s

/-- The loop of line 49:
`for (i = 24*40; i < 24*40+39; i++) screen_ptr[i] = screen_ptr[i+1];`. -/
def shiftRow (s : State) : State :=
  (List.range' (24 * 40) 39).foldl
    (fun st i =>
      poke (DEFAULT_SCREEN + i) (st.mem (DEFAULT_SCREEN + i + 1))
        (touch (DEFAULT_SCREEN + i + 1) st)) s

/-- The body of `if (--offset < 0)`: the character-boundary event. -/
def shiftEvent (s : State) : State :=
  let s := { s with offset := 7 }
  let s := shiftRow s
  let c := s.Message.getD s.nextchar 0
  let s := { s with trace := Access.fetch s.nextchar :: s.trace,
                    nextchar := (s.nextchar + 1) % 256 }
  let s := poke (DEFAULT_SCREEN + 39 + 24 * 40) c s
  if (s.nextchar : Int) ≥ s.Len then { s with nextchar := 0 } else s

/-- The branch taken when the raster line read is below 10. -/
def scrollTop (s : State) : State :=
  let s := poke ScrCtrl2 (s.mem ScrCtrl2 &&& 0xF0) (touch ScrCtrl2 s)
  let s := poke RasterLine1 241 s
  let s := { s with offset := toInt8 (s.offset - 1) }
  if s.offset < 0 then shiftEvent s else s

/-- The branch taken when the raster line read is 10 or more. -/
def scrollBottom (s : State) : State :=
  let s := poke ScrCtrl2 (((s.mem ScrCtrl2 : Int) + s.offset) % 256).toNat
    (touch ScrCtrl2 s)
  poke RasterLine1 0 s

/-- The interrupt handler `scroll`; `line` is the value its load of `$D012`
returns.  The model ends at the jump to the system's handler at `$EA31`. -/
def scroll (line : Nat) (s : State) : State :=
  let s := touch RasterLine1 s
  let s := if line < 10 then scrollTop s else scrollBottom s
  poke InterStat 1 s

/-- The member `set_vb_inter`; `vector` is the address of the handler. -/
def set_vb_inter (vector : Nat) (s : State) : State :=
  let s := { s with irqOff := true }
  let s := poke InterCtrl1 0x7f s
  let s := poke InterCtrl2 0x7f s
  let s := poke ScrCtrl1 (s.mem ScrCtrl1 &&& 0x7f) (touch ScrCtrl1 s)
  let s := poke RasterLine1 0 s
  let s := poke 0x314 (vector % 65536 % 256) s
  let s := poke 0x315 (vector % 65536 / 256 % 256) s
  let s := poke InterCtrl 1 s
  { s with irqOff := false }

/-- The subtraction `lLen - 1` of line 18.  The target's `int` has 16 bits; for an `int`
`lLen` the difference leaves the range only at `lLen = INT_MIN = -32768`, where it
wraps around to `INT_MAX = 32767`. -/
def intPred (lLen : Int) : Int :=
  if lLen - 1 < -32768 then lLen - 1 + 65536 else lLen - 1

/-- The constructor `Scroller(msg, lLen)`, run in state `s`; `vector` is the address of
`scroll`, which the constructor passes to `set_vb_inter`. -/
def Scroller (msg : List Nat) (lLen : Int) (vector : Nat) (s : State) : State :=
  let s := { s with Message := msg, Len := intPred lLen }
  let s := clear_screen s
  set_vb_inter vector s

/-- The state at program start: statics are zero-initialised, `mem` is whatever
the machine holds. -/
def boot (mem : Nat → Nat) : State :=
  { mem := mem, Message := [], Len := 0, offset := 0, nextchar := 0,
    irqOff := false, trace := [] }

/-- A sequence of handler invocations, one per raster line value read. -/
def run (lines : List Nat) (s : State) : State :=
  lines.foldl (fun st l => scroll l st) s

/-- Whether an invocation reading `line` in state `s` is a character-boundary
event: the top branch is taken and `--offset` is negative. -/
def isShift (line : Nat) (s : State) : Bool :=
  decide (line < 10) && decide (toInt8 (s.offset - 1) < 0)

/-- Number of character-boundary events in a sequence of invocations. -/
def shiftCount : List Nat → State → Nat
  | [], _ => 0
  | l :: ls, s => (if isShift l s then 1 else 0) + shiftCount ls (scroll l s)

/-- Number of invocations of a sequence that take the top branch. -/
def tops (lines : List Nat) : Nat := lines.countP (fun l => decide (l < 10))

/-- Whether the lines alternate between top and bottom, starting as given. -/
def alternating : Bool → List Nat → Bool
  | _, [] => true
  | top, l :: ls => (decide (l < 10) == top) && alternating (!top) ls

/-- The invariant of section 3: `0 ≤ offset ≤ 7` and `0 ≤ nextchar < Len`. -/
def Inv (s : State) : Prop :=
  0 ≤ s.offset ∧ s.offset ≤ 7 ∧ (s.nextchar : Int) < s.Len

/-- The loop of line 49 with its bounds as parameters: started at index `a` for `n` rounds. -/
def copyLoop (a n : Nat) (s : State) : State :=
  (List.range' a n).foldl
    (fun st i =>
      poke (DEFAULT_SCREEN + i) (st.mem (DEFAULT_SCREEN + i + 1))
        (touch (DEFAULT_SCREEN + i + 1) st)) s

/-- Period of the cursor: `nextchar` is reset when it reaches `Len`, and as an
8-bit counter it also wraps at 256. -/
def period (Len : Int) : Nat := min Len.toNat 256

/-- Indices of the `Message` reads of a log, newest first. -/
def fetches : List Access → List Nat
  | [] => []
  | Access.fetch i :: t => i :: fetches t
  | Access.load _ :: t => fetches t
  | Access.store _ _ :: t => fetches t

/-- Values stored to address `a` in a log, newest first. -/
def storesTo (a : Nat) : List Access → List Nat
  | [] => []
  | Access.store b v :: t => if b = a then v :: storesTo a t else storesTo a t
  | Access.load _ :: t => storesTo a t
  | Access.fetch _ :: t => storesTo a t

/-- Addresses stored to in a log, newest first. -/
def storeAddrs : List Access → List Nat
  | [] => []
  | Access.store a _ :: t => a :: storeAddrs t
  | Access.load _ :: t => storeAddrs t
  | Access.fetch _ :: t => storeAddrs t

/-- Addresses loaded from in a log, newest first. -/
def loadAddrs : List Access → List Nat
  | [] => []
  | Access.load a :: t => a :: loadAddrs t
  | Access.store _ _ :: t => loadAddrs t
  | Access.fetch _ :: t => loadAddrs t

/-! ## Effect of the primitive operations on each component -/

@[simp] theorem poke_mem (a v : Nat) (s : State) (x : Nat) :
    (poke a v s).mem x = if x = a then v else s.mem x := rfl
@[simp] theorem poke_Message (a v : Nat) (s : State) : (poke a v s).Message = s.Message := rfl
@[simp] theorem poke_Len (a v : Nat) (s : State) : (poke a v s).Len = s.Len := rfl
@[simp] theorem poke_offset (a v : Nat) (s : State) : (poke a v s).offset = s.offset := rfl
@[simp] theorem poke_nextchar (a v : Nat) (s : State) : (poke a v s).nextchar = s.nextchar := rfl
@[simp] theorem poke_irqOff (a v : Nat) (s : State) : (poke a v s).irqOff = s.irqOff := rfl
@[simp] theorem poke_trace (a v : Nat) (s : State) :
    (poke a v s).trace = Access.store a v :: s.trace := rfl

@[simp] theorem touch_mem (a : Nat) (s : State) : (touch a s).mem = s.mem := rfl
@[simp] theorem touch_Message (a : Nat) (s : State) : (touch a s).Message = s.Message := rfl
@[simp] theorem touch_Len (a : Nat) (s : State) : (touch a s).Len = s.Len := rfl
@[simp] theorem touch_offset (a : Nat) (s : State) : (touch a s).offset = s.offset := rfl
@[simp] theorem touch_nextchar (a : Nat) (s : State) : (touch a s).nextchar = s.nextchar := rfl
@[simp] theorem touch_irqOff (a : Nat) (s : State) : (touch a s).irqOff = s.irqOff := rfl
@[simp] theorem touch_trace (a : Nat) (s : State) :
    (touch a s).trace = Access.load a :: s.trace := rfl

theorem shiftRow_eq (s : State) : shiftRow s = copyLoop (24 * 40) 39 s := rfl

theorem copyLoop_succ (a n : Nat) (s : State) :
    copyLoop a (n + 1) s =
      copyLoop (a + 1) n
        (poke (DEFAULT_SCREEN + a) (s.mem (DEFAULT_SCREEN + a + 1))
          (touch (DEFAULT_SCREEN + a + 1) s)) := by
  simp [copyLoop, List.range'_succ]

theorem copyLoop_fields (a n : Nat) (s : State) :
    (copyLoop a n s).Message = s.Message ∧ (copyLoop a n s).Len = s.Len ∧
    (copyLoop a n s).offset = s.offset ∧ (copyLoop a n s).nextchar = s.nextchar ∧
    (copyLoop a n s).irqOff = s.irqOff := by
  induction n generalizing a s with
  | zero => simp [copyLoop]
  | succ n ih =>
    rw [copyLoop_succ]
    obtain ⟨h1, h2, h3, h4, h5⟩ := ih (a + 1)
      (poke (DEFAULT_SCREEN + a) (s.mem (DEFAULT_SCREEN + a + 1))
        (touch (DEFAULT_SCREEN + a + 1) s))
    simp [h1, h2, h3, h4, h5]

theorem copyLoop_mem (a n : Nat) (s : State) (x : Nat) :
    (copyLoop a n s).mem x =
      if DEFAULT_SCREEN + a ≤ x ∧ x < DEFAULT_SCREEN + a + n then s.mem (x + 1)
      else s.mem x := by
  induction n generalizing a s with
  | zero => rw [if_neg (by omega)]; rfl
  | succ n ih =>
    rw [copyLoop_succ, ih]
    simp only [poke_mem, touch_mem]
    by_cases h1 : x = DEFAULT_SCREEN + a
    · subst h1
      simp
    · by_cases h2 : DEFAULT_SCREEN + (a + 1) ≤ x ∧ x < DEFAULT_SCREEN + (a + 1) + n
      · have h3 : DEFAULT_SCREEN + a ≤ x ∧ x < DEFAULT_SCREEN + a + (n + 1) := by omega
        have h4 : x + 1 ≠ DEFAULT_SCREEN + a := by omega
        simp [h2, h3, h4]
      · have h3 : ¬ (DEFAULT_SCREEN + a ≤ x ∧ x < DEFAULT_SCREEN + a + (n + 1)) := by omega
        simp [h1, h2, h3]

theorem memset_succ (p c n : Nat) (s : State) :
    memset p c (n + 1) s = poke (p + n) (c % 256) (memset p c n s) := by
  simp [memset, List.range_succ]

theorem memset_fields (p c n : Nat) (s : State) :
    (memset p c n s).Message = s.Message ∧ (memset p c n s).Len = s.Len ∧
    (memset p c n s).offset = s.offset ∧ (memset p c n s).nextchar = s.nextchar ∧
    (memset p c n s).irqOff = s.irqOff := by
  induction n with
  | zero => simp [memset]
  | succ n ih => rw [memset_succ]; simpa using ih

theorem memset_mem (p c n : Nat) (s : State) (x : Nat) :
    (memset p c n s).mem x = if p ≤ x ∧ x < p + n then c % 256 else s.mem x := by
  induction n with
  | zero => rw [if_neg (by omega)]; rfl
  | succ n ih =>
    rw [memset_succ, poke_mem, ih]
    by_cases h1 : x = p + n
    · subst h1; simp
    · by_cases h2 : p ≤ x ∧ x < p + n
      · have h3 : p ≤ x ∧ x < p + (n + 1) := by omega
        simp [h1, h2, h3]
      · have h3 : ¬ (p ≤ x ∧ x < p + (n + 1)) := by omega
        simp [h1, h2, h3]

/-! ## Effect of the handler on each component -/

theorem toInt8_pred (o : Int) (h0 : -127 ≤ o) (h7 : o ≤ 128) : toInt8 (o - 1) = o - 1 := by
  unfold toInt8; omega

theorem shiftEvent_Message (s : State) : (shiftEvent s).Message = s.Message := by
  unfold shiftEvent
  simp only [shiftRow_eq]
  split <;> simp [(copyLoop_fields _ _ _).1]

theorem shiftEvent_Len (s : State) : (shiftEvent s).Len = s.Len := by
  unfold shiftEvent
  simp only [shiftRow_eq]
  split <;> simp [(copyLoop_fields _ _ _).2.1]

theorem shiftEvent_offset (s : State) : (shiftEvent s).offset = 7 := by
  unfold shiftEvent
  simp only [shiftRow_eq]
  split <;> simp [(copyLoop_fields _ _ _).2.2.1]

theorem shiftEvent_irqOff (s : State) : (shiftEvent s).irqOff = s.irqOff := by
  unfold shiftEvent
  simp only [shiftRow_eq]
  split <;> simp [(copyLoop_fields _ _ _).2.2.2.2]

theorem shiftEvent_nextchar (s : State) :
    (shiftEvent s).nextchar =
      if s.Len ≤ (((s.nextchar + 1) % 256 : Nat) : Int) then 0 else (s.nextchar + 1) % 256 := by
  unfold shiftEvent
  simp only [shiftRow_eq, poke_nextchar, poke_Len, (copyLoop_fields _ _ _).2.1,
    (copyLoop_fields _ _ _).2.2.2.1, ge_iff_le]
  split <;> simp [(copyLoop_fields _ _ _).2.2.2.1]

theorem shiftEvent_mem (s : State) (x : Nat) :
    (shiftEvent s).mem x =
      if x = DEFAULT_SCREEN + 39 + 24 * 40 then s.Message.getD s.nextchar 0
      else if DEFAULT_SCREEN + 24 * 40 ≤ x ∧ x < DEFAULT_SCREEN + 24 * 40 + 39 then s.mem (x + 1)
      else s.mem x := by
  unfold shiftEvent
  simp only [shiftRow_eq]
  split <;> simp [(copyLoop_fields _ _ _).1, (copyLoop_fields _ _ _).2.2.2.1, copyLoop_mem]

theorem scroll_Message (l : Nat) (s : State) : (scroll l s).Message = s.Message := by
  unfold scroll scrollTop scrollBottom
  simp only [poke_Message]
  split
  · split <;> simp [shiftEvent_Message]
  · simp

theorem scroll_Len (l : Nat) (s : State) : (scroll l s).Len = s.Len := by
  unfold scroll scrollTop scrollBottom
  simp only [poke_Len]
  split
  · split <;> simp [shiftEvent_Len]
  · simp

theorem scroll_irqOff (l : Nat) (s : State) : (scroll l s).irqOff = s.irqOff := by
  unfold scroll scrollTop scrollBottom
  simp only [poke_irqOff]
  split
  · split <;> simp [shiftEvent_irqOff]
  · simp

theorem scroll_offset (l : Nat) (s : State) :
    (scroll l s).offset =
      if l < 10 then (if toInt8 (s.offset - 1) < 0 then 7 else toInt8 (s.offset - 1))
      else s.offset := by
  unfold scroll scrollTop scrollBottom
  simp only [poke_offset]
  by_cases hl : l < 10
  · by_cases ho : toInt8 (s.offset - 1) < 0 <;> simp [hl, ho, shiftEvent_offset]
  · simp [hl]

theorem scroll_nextchar (l : Nat) (s : State) :
    (scroll l s).nextchar =
      if isShift l s then
        (if s.Len ≤ (((s.nextchar + 1) % 256 : Nat) : Int) then 0 else (s.nextchar + 1) % 256)
      else s.nextchar := by
  unfold scroll scrollTop scrollBottom isShift
  simp only [poke_nextchar]
  by_cases hl : l < 10
  · by_cases ho : toInt8 (s.offset - 1) < 0
    · simp [hl, ho, shiftEvent_nextchar, shiftEvent_Len]
    · simp [hl, ho]
  · simp [hl]

theorem scroll_mem_top (l : Nat) (s : State) (hl : l < 10) (x : Nat) :
    (scroll l s).mem x =
      if x = InterStat then 1
      else if toInt8 (s.offset - 1) < 0 then
        (if x = DEFAULT_SCREEN + 39 + 24 * 40 then s.Message.getD s.nextchar 0
         else if DEFAULT_SCREEN + 24 * 40 ≤ x ∧ x < DEFAULT_SCREEN + 24 * 40 + 39 then
           (if x + 1 = RasterLine1 then 241
            else if x + 1 = ScrCtrl2 then s.mem ScrCtrl2 &&& 0xF0 else s.mem (x + 1))
         else if x = RasterLine1 then 241
         else if x = ScrCtrl2 then s.mem ScrCtrl2 &&& 0xF0 else s.mem x)
      else if x = RasterLine1 then 241
      else if x = ScrCtrl2 then s.mem ScrCtrl2 &&& 0xF0 else s.mem x := by
  unfold scroll scrollTop
  simp only [poke_mem, hl, if_true]
  by_cases ho : toInt8 (s.offset - 1) < 0
  · simp [ho, shiftEvent_mem]
  · simp [ho]

theorem scroll_mem_bottom (l : Nat) (s : State) (hl : ¬ l < 10) (x : Nat) :
    (scroll l s).mem x =
      if x = InterStat then 1
      else if x = RasterLine1 then 0
      else if x = ScrCtrl2 then (((s.mem ScrCtrl2 : Int) + s.offset) % 256).toNat
      else s.mem x := by
  unfold scroll scrollBottom
  simp [hl]

/-! ## Sequences of invocations -/

@[simp] theorem run_nil (s : State) : run [] s = s := rfl

@[simp] theorem run_cons (l : Nat) (ls : List Nat) (s : State) :
    run (l :: ls) s = run ls (scroll l s) := rfl

theorem run_append (ls ms : List Nat) (s : State) :
    run (ls ++ ms) s = run ms (run ls s) := by
  simp [run, List.foldl_append]

theorem run_Len (ls : List Nat) (s : State) : (run ls s).Len = s.Len := by
  induction ls generalizing s with
  | nil => rfl
  | cons l ls ih => rw [run_cons, ih, scroll_Len]

theorem run_Message (ls : List Nat) (s : State) : (run ls s).Message = s.Message := by
  induction ls generalizing s with
  | nil => rfl
  | cons l ls ih => rw [run_cons, ih, scroll_Message]

@[simp] theorem tops_nil : tops [] = 0 := rfl

theorem tops_cons (l : Nat) (ls : List Nat) :
    tops (l :: ls) = (if l < 10 then 1 else 0) + tops ls := by
  unfold tops
  by_cases h : l < 10 <;> simp [List.countP_cons, h, Nat.add_comm]

theorem isShift_iff (l : Nat) (s : State) (h0 : 0 ≤ s.offset) (h7 : s.offset ≤ 7) :
    isShift l s = true ↔ l < 10 ∧ s.offset = 0 := by
  unfold isShift toInt8
  simp only [Bool.and_eq_true, decide_eq_true_eq]
  constructor
  · rintro ⟨h1, h2⟩; exact ⟨h1, by omega⟩
  · rintro ⟨h1, h2⟩; exact ⟨h1, by omega⟩

theorem scroll_offset_range (l : Nat) (s : State) (h0 : 0 ≤ s.offset) (h7 : s.offset ≤ 7) :
    0 ≤ (scroll l s).offset ∧ (scroll l s).offset ≤ 7 := by
  rw [scroll_offset]
  unfold toInt8
  split
  · split <;> omega
  · omega

theorem scroll_offset_mod (l : Nat) (s : State) (h0 : 0 ≤ s.offset) (h7 : s.offset ≤ 7) :
    (scroll l s).offset = (s.offset - (if l < 10 then 1 else 0)) % 8 := by
  rw [scroll_offset]
  unfold toInt8
  split
  · split <;> omega
  · omega

theorem run_offset_range (ls : List Nat) (s : State) (h0 : 0 ≤ s.offset) (h7 : s.offset ≤ 7) :
    0 ≤ (run ls s).offset ∧ (run ls s).offset ≤ 7 := by
  induction ls generalizing s with
  | nil => exact ⟨h0, h7⟩
  | cons l ls ih =>
    rw [run_cons]
    exact ih _ (scroll_offset_range l s h0 h7).1 (scroll_offset_range l s h0 h7).2

theorem run_offset (ls : List Nat) (s : State) (h0 : 0 ≤ s.offset) (h7 : s.offset ≤ 7) :
    (run ls s).offset = (s.offset - (tops ls : Int)) % 8 := by
  induction ls generalizing s with
  | nil => simp; omega
  | cons l ls ih =>
    have hr := scroll_offset_range l s h0 h7
    rw [run_cons, ih _ hr.1 hr.2, scroll_offset_mod l s h0 h7, tops_cons]
    split <;> push_cast <;> omega

theorem shiftCount_eq (ls : List Nat) (s : State) (h0 : 0 ≤ s.offset) (h7 : s.offset ≤ 7) :
    shiftCount ls s = (tops ls + 7 - s.offset.toNat) / 8 := by
  induction ls generalizing s with
  | nil => simp [shiftCount]; omega
  | cons l ls ih =>
    have hr := scroll_offset_range l s h0 h7
    have hm := scroll_offset_mod l s h0 h7
    rw [shiftCount, ih _ hr.1 hr.2, tops_cons]
    by_cases hl : l < 10
    · by_cases ho : s.offset = 0
      · have hs : isShift l s = true := (isShift_iff l s h0 h7).2 ⟨hl, ho⟩
        simp only [hs, if_true, hl] at hm ⊢
        omega
      · have hs : isShift l s = false :=
          Bool.eq_false_iff.2 fun h => ho ((isShift_iff l s h0 h7).1 h).2
        simp only [hs, hl, if_true, Bool.false_eq_true, if_false] at hm ⊢
        omega
    · have hs : isShift l s = false :=
        Bool.eq_false_iff.2 fun h => hl ((isShift_iff l s h0 h7).1 h).1
      simp only [hs, hl, Bool.false_eq_true, if_false] at hm ⊢
      omega

theorem period_pos (Len : Int) (h : 1 ≤ Len) : 0 < period Len := by
  unfold period; omega

theorem period_le (Len : Int) : period Len ≤ 256 := by
  unfold period; omega

theorem step_nextchar (n : Nat) (Len : Int) (h : 1 ≤ Len) (hn : n < period Len) :
    (if Len ≤ (((n + 1) % 256 : Nat) : Int) then 0 else (n + 1) % 256) = (n + 1) % period Len := by
  have hp : period Len = min Len.toNat 256 := rfl
  by_cases h1 : n + 1 = period Len
  · rw [h1, Nat.mod_self]
    by_cases h2 : period Len = 256
    · rw [h2]; simp
    · have h3 : period Len % 256 = period Len := Nat.mod_eq_of_lt (by omega)
      rw [h3, if_pos (by omega)]
  · have h2 : n + 1 < period Len := by omega
    rw [Nat.mod_eq_of_lt h2, Nat.mod_eq_of_lt (by omega), if_neg (by omega)]

theorem run_nextchar (ls : List Nat) (s : State) (h : 1 ≤ s.Len)
    (hn : s.nextchar < period s.Len) :
    (run ls s).nextchar = (s.nextchar + shiftCount ls s) % period s.Len := by
  induction ls generalizing s with
  | nil => simp [shiftCount, Nat.mod_eq_of_lt hn]
  | cons l ls ih =>
    have hL := scroll_Len l s
    have hpos := period_pos s.Len h
    have hstep : (scroll l s).nextchar
        = (s.nextchar + (if isShift l s then 1 else 0)) % period s.Len := by
      rw [scroll_nextchar]
      by_cases hs : isShift l s = true
      · simp only [hs, if_true]; exact step_nextchar _ _ h hn
      · simp only [hs]; simp [Nat.mod_eq_of_lt hn]
    have hn2 : (scroll l s).nextchar < period (scroll l s).Len := by
      rw [hL, hstep]; exact Nat.mod_lt _ hpos
    rw [run_cons, ih _ (by rw [hL]; exact h) hn2, hL, hstep, shiftCount]
    rw [Nat.add_mod, Nat.mod_mod, ← Nat.add_mod, Nat.add_assoc]

/-! ## The access log -/

@[simp] theorem fetches_nil : fetches [] = [] := rfl
@[simp] theorem fetches_fetch (i : Nat) (t : List Access) :
    fetches (Access.fetch i :: t) = i :: fetches t := rfl
@[simp] theorem fetches_load (a : Nat) (t : List Access) :
    fetches (Access.load a :: t) = fetches t := rfl
@[simp] theorem fetches_store (a v : Nat) (t : List Access) :
    fetches (Access.store a v :: t) = fetches t := rfl

@[simp] theorem storesTo_nil (r : Nat) : storesTo r [] = [] := rfl
@[simp] theorem storesTo_fetch (r i : Nat) (t : List Access) :
    storesTo r (Access.fetch i :: t) = storesTo r t := rfl
@[simp] theorem storesTo_load (r a : Nat) (t : List Access) :
    storesTo r (Access.load a :: t) = storesTo r t := rfl
@[simp] theorem storesTo_store (r a v : Nat) (t : List Access) :
    storesTo r (Access.store a v :: t) = if a = r then v :: storesTo r t else storesTo r t := rfl

theorem copyLoop_fetches (a n : Nat) (s : State) :
    fetches (copyLoop a n s).trace = fetches s.trace := by
  induction n generalizing a s with
  | zero => rfl
  | succ n ih => rw [copyLoop_succ, ih]; simp only [poke_trace, touch_trace, fetches_store, fetches_load]

theorem copyLoop_storesTo (r a n : Nat) (s : State) (hr : DEFAULT_SCREEN + a + n ≤ r) :
    storesTo r (copyLoop a n s).trace = storesTo r s.trace := by
  induction n generalizing a s with
  | zero => rfl
  | succ n ih =>
    rw [copyLoop_succ, ih _ _ (by omega)]
    have h : DEFAULT_SCREEN + a ≠ r := by omega
    simp only [poke_trace, touch_trace, storesTo_store, storesTo_load, if_neg h]

theorem memset_fetches (p c n : Nat) (s : State) :
    fetches (memset p c n s).trace = fetches s.trace := by
  induction n with
  | zero => rfl
  | succ n ih => rw [memset_succ, poke_trace, fetches_store, ih]

theorem shiftEvent_trace (s : State) :
    (shiftEvent s).trace =
      Access.store (DEFAULT_SCREEN + 39 + 24 * 40) (s.Message.getD s.nextchar 0) ::
        Access.fetch s.nextchar :: (copyLoop (24 * 40) 39 { s with offset := 7 }).trace := by
  unfold shiftEvent
  simp only [shiftRow_eq]
  split <;>
    simp only [poke_trace, (copyLoop_fields _ _ _).1, (copyLoop_fields _ _ _).2.2.2.1]

theorem shiftEvent_fetches (s : State) :
    fetches (shiftEvent s).trace = s.nextchar :: fetches s.trace := by
  rw [shiftEvent_trace, fetches_store, fetches_fetch, copyLoop_fetches]

theorem scroll_fetches (l : Nat) (s : State) :
    fetches (scroll l s).trace =
      if isShift l s then s.nextchar :: fetches s.trace else fetches s.trace := by
  unfold scroll scrollTop scrollBottom isShift
  by_cases hl : l < 10
  · by_cases ho : toInt8 (s.offset - 1) < 0
    · simp [hl, ho, shiftEvent_fetches]
    · simp [hl, ho]
  · simp [hl]

theorem shiftEvent_storesTo (r : Nat) (s : State) (hr : DEFAULT_SCREEN + 24 * 40 + 39 < r) :
    storesTo r (shiftEvent s).trace = storesTo r s.trace := by
  have h : DEFAULT_SCREEN + 39 + 24 * 40 ≠ r := by omega
  rw [shiftEvent_trace, storesTo_store, if_neg h, storesTo_fetch,
    copyLoop_storesTo r _ _ _ (Nat.le_of_lt hr)]

theorem scroll_storesTo_raster (l : Nat) (s : State) :
    storesTo RasterLine1 (scroll l s).trace =
      (if l < 10 then 241 else 0) :: storesTo RasterLine1 s.trace := by
  have hr : DEFAULT_SCREEN + 24 * 40 + 39 < RasterLine1 := by decide
  have h1 : InterStat ≠ RasterLine1 := by decide
  have h2 : ScrCtrl2 ≠ RasterLine1 := by decide
  unfold scroll scrollTop scrollBottom
  by_cases hl : l < 10
  · by_cases ho : toInt8 (s.offset - 1) < 0
    · simp only [hl, ho, if_true, poke_trace, touch_trace, storesTo_store, if_neg h1,
        shiftEvent_storesTo _ _ hr, storesTo_load, if_neg h2, poke_offset, touch_offset]
    · simp only [hl, ho, if_true, if_false, poke_trace, touch_trace, storesTo_store, if_neg h1,
        storesTo_load, if_neg h2, poke_offset, touch_offset]
  · simp only [hl, if_false, poke_trace, touch_trace, storesTo_store, if_neg h1,
      storesTo_load, if_neg h2, if_true]

/-! ## The constructor -/

theorem set_vb_inter_mem (v : Nat) (s : State) (x : Nat) :
    (set_vb_inter v s).mem x =
      if x = InterCtrl then 1
      else if x = 0x315 then v % 65536 / 256 % 256
      else if x = 0x314 then v % 65536 % 256
      else if x = RasterLine1 then 0
      else if x = ScrCtrl1 then s.mem ScrCtrl1 &&& 0x7f
      else if x = InterCtrl2 then 0x7f
      else if x = InterCtrl1 then 0x7f
      else s.mem x := by
  have h1 : ScrCtrl1 ≠ InterCtrl2 := by decide
  have h2 : ScrCtrl1 ≠ InterCtrl1 := by decide
  simp [set_vb_inter, h1, h2]

theorem clear_screen_fields (s : State) :
    (clear_screen s).Message = s.Message ∧ (clear_screen s).Len = s.Len ∧
    (clear_screen s).offset = s.offset ∧ (clear_screen s).nextchar = s.nextchar ∧
    (clear_screen s).irqOff = s.irqOff :=
  memset_fields _ _ _ s

theorem set_vb_inter_fields (v : Nat) (s : State) :
    (set_vb_inter v s).Message = s.Message ∧ (set_vb_inter v s).Len = s.Len ∧
    (set_vb_inter v s).offset = s.offset ∧ (set_vb_inter v s).nextchar = s.nextchar ∧
    (set_vb_inter v s).irqOff = false :=
  ⟨rfl, rfl, rfl, rfl, rfl⟩

theorem ctor_Message (msg : List Nat) (lLen : Int) (v : Nat) (s : State) :
    (Scroller msg lLen v s).Message = msg := by
  unfold Scroller
  simp only [(set_vb_inter_fields _ _).1, (clear_screen_fields _).1]

theorem ctor_Len_raw (msg : List Nat) (lLen : Int) (v : Nat) (s : State) :
    (Scroller msg lLen v s).Len = intPred lLen := by
  unfold Scroller
  simp only [(set_vb_inter_fields _ _).2.1, (clear_screen_fields _).2.1]

theorem intPred_eq (lLen : Int) (h : -32768 < lLen) : intPred lLen = lLen - 1 := by
  unfold intPred
  rw [if_neg (by omega)]

theorem ctor_Len (msg : List Nat) (lLen : Int) (v : Nat) (s : State) (h : -32768 < lLen) :
    (Scroller msg lLen v s).Len = lLen - 1 := by
  rw [ctor_Len_raw, intPred_eq lLen h]

theorem ctor_offset (msg : List Nat) (lLen : Int) (v : Nat) (s : State) :
    (Scroller msg lLen v s).offset = s.offset := by
  unfold Scroller
  simp only [(set_vb_inter_fields _ _).2.2.1, (clear_screen_fields _).2.2.1]

theorem ctor_nextchar (msg : List Nat) (lLen : Int) (v : Nat) (s : State) :
    (Scroller msg lLen v s).nextchar = s.nextchar := by
  unfold Scroller
  simp only [(set_vb_inter_fields _ _).2.2.2.1, (clear_screen_fields _).2.2.2.1]

theorem set_vb_inter_fetches (v : Nat) (s : State) :
    fetches (set_vb_inter v s).trace = fetches s.trace := rfl

theorem ctor_fetches (msg : List Nat) (lLen : Int) (v : Nat) (s : State) :
    fetches (Scroller msg lLen v s).trace = fetches s.trace := by
  unfold Scroller clear_screen
  simp only [set_vb_inter_fetches, memset_fetches]

theorem ctor_screen (msg : List Nat) (lLen : Int) (v : Nat) (s : State) (i : Nat)
    (hi : i < 40 * 25) : (Scroller msg lLen v s).mem (DEFAULT_SCREEN + i) = 0x20 := by
  have hx : DEFAULT_SCREEN ≤ DEFAULT_SCREEN + i ∧ DEFAULT_SCREEN + i < DEFAULT_SCREEN + 40 * 25 := by
    omega
  unfold Scroller
  simp only [set_vb_inter_mem, clear_screen, memset_mem, hx]
  simp only [DEFAULT_SCREEN, InterCtrl, RasterLine1, ScrCtrl1, InterCtrl2, InterCtrl1]
  rw [if_neg (by omega), if_neg (by omega), if_neg (by omega), if_neg (by omega),
    if_neg (by omega), if_neg (by omega), if_neg (by omega)]
  rfl

/-! ## Alternating schedules and bit masks -/

theorem tops_alternating (ls : List Nat) :
    (alternating true ls = true → tops ls = (ls.length + 1) / 2) ∧
    (alternating false ls = true → tops ls = ls.length / 2) := by
  induction ls with
  | nil => simp [alternating]
  | cons l ls ih =>
    rw [tops_cons]
    by_cases hl : l < 10
    · simp only [alternating, hl, decide_True, if_true, List.length_cons]
      refine ⟨fun h => ?_, fun h => ?_⟩
      · have := ih.2 (by simpa using h); omega
      · simp at h
    · simp only [alternating, hl, decide_False, if_false, List.length_cons]
      refine ⟨fun h => ?_, fun h => ?_⟩
      · simp at h
      · have := ih.1 (by simpa using h); omega

theorem land_F0 (v : Nat) : v &&& 0xF0 = 16 * (v / 16 % 16) := by
  have hlow : (v &&& 0xF0) % 16 = 0 := by
    have h := Nat.and_pow_two_sub_one_eq_mod (v &&& 0xF0) 4
    have h2 : (v &&& 0xF0) &&& (2 ^ 4 - 1) = v &&& (0xF0 &&& (2 ^ 4 - 1)) := Nat.and_assoc _ _ _
    have h3 : (0xF0 &&& (2 ^ 4 - 1) : Nat) = 0 := by decide
    rw [h2, h3, Nat.and_zero] at h
    exact h.symm
  have hhigh : (v &&& 0xF0) / 16 = v / 16 % 16 := by
    have e : (v &&& 0xF0) / 16 = (v &&& 0xF0) / 2 / 2 / 2 / 2 := by
      rw [Nat.div_div_eq_div_mul, Nat.div_div_eq_div_mul, Nat.div_div_eq_div_mul]
    have e2 : v / 16 = v / 2 / 2 / 2 / 2 := by
      rw [Nat.div_div_eq_div_mul, Nat.div_div_eq_div_mul, Nat.div_div_eq_div_mul]
    rw [e, e2, Nat.and_div_two, Nat.and_div_two, Nat.and_div_two, Nat.and_div_two]
    exact Nat.and_pow_two_sub_one_eq_mod _ 4
  omega

theorem land_7F (v : Nat) : v &&& 0x7f = v % 128 :=
  Nat.and_pow_two_sub_one_eq_mod v 7

/-! ## The cursor after a run from the constructed state -/

theorem scroll_Inv (l : Nat) (s : State) (h : Inv s) : Inv (scroll l s) := by
  obtain ⟨h0, h7, hn⟩ := h
  refine ⟨(scroll_offset_range l s h0 h7).1, (scroll_offset_range l s h0 h7).2, ?_⟩
  rw [scroll_nextchar, scroll_Len]
  split
  · split
    · push_cast; omega
    · omega
  · exact hn

theorem run_Inv (ls : List Nat) (s : State) (h : Inv s) : Inv (run ls s) := by
  induction ls generalizing s with
  | nil => exact h
  | cons l ls ih => exact ih _ (scroll_Inv l s h)

theorem ctor_boot_offset (mem : Nat → Nat) (msg : List Nat) (lLen : Int) (v : Nat) :
    (Scroller msg lLen v (boot mem)).offset = 0 := by
  rw [ctor_offset]; rfl

theorem ctor_boot_nextchar (mem : Nat → Nat) (msg : List Nat) (lLen : Int) (v : Nat) :
    (Scroller msg lLen v (boot mem)).nextchar = 0 := by
  rw [ctor_nextchar]; rfl

theorem shiftCount_from_boot (mem : Nat → Nat) (msg : List Nat) (lLen : Int) (v : Nat)
    (ls : List Nat) :
    shiftCount ls (Scroller msg lLen v (boot mem)) = (tops ls + 7) / 8 := by
  have ho := ctor_boot_offset mem msg lLen v
  rw [shiftCount_eq _ _ (by omega) (by omega), ho]
  rfl

theorem nextchar_from_boot (mem : Nat → Nat) (msg : List Nat) (lLen : Int) (v : Nat)
    (ls : List Nat) (hLen : 1 ≤ lLen - 1) :
    (run ls (Scroller msg lLen v (boot mem))).nextchar
      = ((tops ls + 7) / 8) % period (lLen - 1) := by
  have hL := ctor_Len msg lLen v (boot mem) (by omega)
  have hn := ctor_boot_nextchar mem msg lLen v
  have hp := period_pos (lLen - 1) hLen
  rw [run_nextchar _ _ (by rw [hL]; exact hLen) (by rw [hL, hn]; exact hp), hL, hn,
    shiftCount_from_boot, Nat.zero_add]

theorem period_cast (Len : Int) (h1 : 1 ≤ Len) (h2 : Len ≤ 256) : (period Len : Int) = Len := by
  unfold period; omega

theorem tops_replicate_top (n l : Nat) (hl : l < 10) : tops (List.replicate n l) = n := by
  induction n with
  | zero => rfl
  | succ n ih => rw [List.replicate_succ, tops_cons, if_pos hl, ih]; omega

theorem isShift_top (l : Nat) (s : State) (h : isShift l s = true) :
    l < 10 ∧ toInt8 (s.offset - 1) < 0 := by
  unfold isShift at h
  simpa using h

theorem scroll_shift_cell (l : Nat) (s : State) (h : isShift l s = true) :
    (scroll l s).mem (DEFAULT_SCREEN + 999) = s.Message.getD s.nextchar 0 := by
  obtain ⟨hl, ho⟩ := isShift_top l s h
  rw [scroll_mem_top l s hl, if_neg (by decide), if_pos ho, if_pos rfl]

theorem scroll_shift_row (l : Nat) (s : State) (h : isShift l s = true) (j : Nat) (hj : j < 39) :
    (scroll l s).mem (DEFAULT_SCREEN + 960 + j) = s.mem (DEFAULT_SCREEN + 960 + j + 1) := by
  obtain ⟨hl, ho⟩ := isShift_top l s h
  rw [scroll_mem_top l s hl, if_pos ho]
  simp only [DEFAULT_SCREEN, InterStat, RasterLine1, ScrCtrl2]
  rw [if_neg (by omega), if_neg (by omega), if_pos (by omega), if_neg (by omega),
    if_neg (by omega)]

theorem run_nextchar_noshift (ms : List Nat) (s : State) (h : shiftCount ms s = 0) :
    (run ms s).nextchar = s.nextchar := by
  induction ms generalizing s with
  | nil => rfl
  | cons l ms ih =>
    rw [shiftCount] at h
    have h1 : isShift l s = false := by
      by_contra hc
      rw [Bool.not_eq_false] at hc
      rw [hc] at h
      simp at h
    rw [run_cons, ih _ (by omega), scroll_nextchar, h1]
    simp

theorem run_fetches_lt (ls : List Nat) (s : State) (hI : Inv s)
    (hf : ∀ i ∈ fetches s.trace, (i : Int) < s.Len) :
    ∀ i ∈ fetches (run ls s).trace, (i : Int) < s.Len := by
  induction ls generalizing s with
  | nil => exact hf
  | cons l ls ih =>
    have hL := scroll_Len l s
    rw [run_cons, ← hL]
    apply ih _ (scroll_Inv l s hI)
    intro i hi
    rw [scroll_fetches] at hi
    rw [hL]
    split at hi
    · rcases List.mem_cons.1 hi with h | h
      · rw [h]; exact hI.2.2
      · exact hf i h
    · exact hf i hi

theorem nextchar_lt_256 (mem : Nat → Nat) (msg : List Nat) (lLen : Int) (v : Nat)
    (ls : List Nat) (hLen : 1 ≤ lLen - 1) :
    (run ls (Scroller msg lLen v (boot mem))).nextchar < 256 := by
  rw [nextchar_from_boot mem msg lLen v ls hLen]
  exact Nat.lt_of_lt_of_le (Nat.mod_lt _ (period_pos _ hLen)) (period_le _)

theorem Inv_from_boot (mem : Nat → Nat) (msg : List Nat) (lLen : Int) (v : Nat)
    (ls : List Nat) (hLen : 1 ≤ lLen - 1) :
    Inv (run ls (Scroller msg lLen v (boot mem))) := by
  apply run_Inv
  refine ⟨by rw [ctor_boot_offset], by rw [ctor_boot_offset]; omega, ?_⟩
  rw [ctor_boot_nextchar, ctor_Len _ _ _ _ (by omega)]; push_cast; omega

theorem shiftCount_append (ls ms : List Nat) (s : State) :
    shiftCount (ls ++ ms) s = shiftCount ls s + shiftCount ms (run ls s) := by
  induction ls generalizing s with
  | nil => simp [shiftCount]
  | cons l ls ih => rw [List.cons_append, shiftCount, shiftCount, ih, run_cons]; omega

theorem scroll_noshift_cell (l : Nat) (s : State) (h : isShift l s = false) (x : Nat)
    (h1 : x ≠ InterStat) (h2 : x ≠ RasterLine1) (h3 : x ≠ ScrCtrl2) :
    (scroll l s).mem x = s.mem x := by
  by_cases hl : l < 10
  · have ho : ¬ toInt8 (s.offset - 1) < 0 := by
      intro hc
      unfold isShift at h
      simp [hl, hc] at h
    rw [scroll_mem_top l s hl, if_neg h1, if_neg ho, if_neg h2, if_neg h3]
  · rw [scroll_mem_bottom l s hl, if_neg h1, if_neg h2, if_neg h3]

theorem run_cell999 (ls : List Nat) (s : State) (k : Nat) (hLen : 1 ≤ s.Len)
    (hn : s.nextchar < period s.Len) (hk : shiftCount ls s = k + 1) :
    (run ls s).mem (DEFAULT_SCREEN + 999)
      = s.Message.getD ((s.nextchar + k) % period s.Len) 0 := by
  induction ls using List.reverseRecOn generalizing k with
  | nil => simp [shiftCount] at hk
  | append_singleton ls l ih =>
    rw [shiftCount_append, shiftCount, shiftCount] at hk
    rw [run_append, run_cons, run_nil]
    by_cases hs : isShift l (run ls s) = true
    · rw [scroll_shift_cell _ _ hs, run_Message, run_nextchar ls s hLen hn]
      rw [hs] at hk
      have : shiftCount ls s = k := by simpa using hk
      rw [this]
    · rw [Bool.not_eq_true] at hs
      rw [scroll_noshift_cell _ _ hs _ (by decide) (by decide) (by decide)]
      rw [hs] at hk
      exact ih k (by simpa using hk)

theorem scroll_top_ScrCtrl2 (l : Nat) (s : State) (hl : l < 10) :
    (scroll l s).mem ScrCtrl2 = s.mem ScrCtrl2 &&& 0xF0 := by
  rw [scroll_mem_top l s hl, if_neg (by decide)]
  split
  · rw [if_neg (by decide), if_neg (by decide), if_neg (by decide), if_pos rfl]
  · rw [if_neg (by decide), if_pos rfl]

theorem scroll_bottom_ScrCtrl2 (l : Nat) (s : State) (hl : ¬ l < 10) :
    (scroll l s).mem ScrCtrl2 = (((s.mem ScrCtrl2 : Int) + s.offset) % 256).toNat := by
  rw [scroll_mem_bottom l s hl, if_neg (by decide), if_neg (by decide), if_pos rfl]

theorem scroll_RasterLine1 (l : Nat) (s : State) :
    (scroll l s).mem RasterLine1 = if l < 10 then 241 else 0 := by
  by_cases hl : l < 10
  · rw [scroll_mem_top l s hl, if_neg (by decide), if_pos hl]
    split
    · rw [if_neg (by decide), if_neg (by decide), if_pos rfl]
    · rw [if_pos rfl]
  · rw [scroll_mem_bottom l s hl, if_neg (by decide), if_pos rfl, if_neg hl]

theorem alternating_last (b : Bool) (ls : List Nat) (l : Nat)
    (h : alternating b (ls ++ [l]) = true) :
    decide (l < 10) = (if ls.length % 2 = 0 then b else !b) := by
  induction ls generalizing b with
  | nil => simpa [alternating] using h
  | cons a ls ih =>
    rw [List.cons_append, alternating, Bool.and_eq_true] at h
    have h2 := ih (!b) h.2
    rw [h2, List.length_cons]
    by_cases hp : ls.length % 2 = 0
    · have hq : ¬ (ls.length + 1) % 2 = 0 := by omega
      rw [if_pos hp, if_neg hq]
    · have hq : (ls.length + 1) % 2 = 0 := by omega
      rw [if_neg hp, if_pos hq, Bool.not_not]

/-! ## The claims -/

/-- C1, amended.  From the state right after construction with `40 ≤ Len ≤ 256`, after
`8 * f` invocations that alternate top and bottom, top first, `nextchar` is
`⌈f / 2⌉ mod Len`: a character is shifted in at the first top invocation and then at
every eighth one, and `8 * f` invocations hold `4 * f` top invocations.  So after
`16 * g` invocations it is `g mod Len`. -/
theorem C1_nextchar_after_frames (mem : Nat → Nat) (msg : List Nat) (lLen : Int) (v f : Nat)
    (ls : List Nat) (hLen : 40 ≤ lLen - 1) (h256 : lLen - 1 ≤ 256)
    (halt : alternating true ls = true) (hlen : ls.length = 8 * f) :
    ((run ls (Scroller msg lLen v (boot mem))).nextchar : Int)
      = (((f + 1) / 2 : Nat) : Int) % (lLen - 1) ∧
    (∀ g : Nat, f = 2 * g →
      ((run ls (Scroller msg lLen v (boot mem))).nextchar : Int) = (g : Int) % (lLen - 1)) := by
  have ht := (tops_alternating ls).1 halt
  have hk : (tops ls + 7) / 8 = (f + 1) / 2 := by omega
  have hmain := nextchar_from_boot mem msg lLen v ls (by omega)
  rw [hk] at hmain
  have hcast : ((run ls (Scroller msg lLen v (boot mem))).nextchar : Int)
      = (((f + 1) / 2 : Nat) : Int) % (lLen - 1) := by
    rw [hmain, Int.natCast_mod, period_cast _ (by omega) h256]
  refine ⟨hcast, fun g hg => ?_⟩
  have e : (f + 1) / 2 = g := by omega
  rw [hcast, e]

/-- C1, witness: sixteen alternating invocations (`f = 2`) on a message of 40 characters
leave `nextchar = 1`. -/
theorem C1_nextchar_after_frames_witness :
    (40 : Int) ≤ 41 - 1 ∧ (41 : Int) - 1 ≤ 256 ∧
    alternating true [0, 241, 0, 241, 0, 241, 0, 241, 0, 241, 0, 241, 0, 241, 0, 241] = true ∧
    ((run [0, 241, 0, 241, 0, 241, 0, 241, 0, 241, 0, 241, 0, 241, 0, 241]
        (Scroller (List.replicate 41 0x20) 41 0xC000 (boot fun _ => 0))).nextchar : Int)
      = (((2 + 1) / 2 : Nat) : Int) % (41 - 1) :=
  ⟨by decide, by decide, by decide,
    (C1_nextchar_after_frames (fun _ => 0) (List.replicate 41 0x20) 41 0xC000 2
      [0, 241, 0, 241, 0, 241, 0, 241, 0, 241, 0, 241, 0, 241, 0, 241]
      (by decide) (by decide) (by decide) (by decide)).1⟩

/-- C1 as stated fails: with `Len = 40` and `f = 2`, sixteen alternating invocations
(top first) leave `nextchar = 1`, while `f mod Len = 2`. -/
theorem C1_counterexample :
    (40 : Int) ≤ 41 - 1 ∧
    alternating true [0, 241, 0, 241, 0, 241, 0, 241, 0, 241, 0, 241, 0, 241, 0, 241] = true ∧
    [0, 241, 0, 241, 0, 241, 0, 241, 0, 241, 0, 241, 0, 241, 0, 241].length = 8 * 2 ∧
    (run [0, 241, 0, 241, 0, 241, 0, 241, 0, 241, 0, 241, 0, 241, 0, 241]
        (Scroller (List.replicate 41 0x20) 41 0xC000 (boot fun _ => 0))).nextchar = 1 ∧
    ¬ (((run [0, 241, 0, 241, 0, 241, 0, 241, 0, 241, 0, 241, 0, 241, 0, 241]
        (Scroller (List.replicate 41 0x20) 41 0xC000 (boot fun _ => 0))).nextchar : Int)
        = ((2 : Nat) : Int) % (41 - 1)) := by
  have h := nextchar_from_boot (fun _ => 0) (List.replicate 41 0x20) 41 0xC000
    [0, 241, 0, 241, 0, 241, 0, 241, 0, 241, 0, 241, 0, 241, 0, 241] (by decide)
  have e : ((tops [0, 241, 0, 241, 0, 241, 0, 241, 0, 241, 0, 241, 0, 241, 0, 241] + 7) / 8)
      % period (41 - 1) = 1 := by decide
  rw [e] at h
  refine ⟨by decide, by decide, by decide, h, ?_⟩
  rw [h]
  decide

/-- C2.  For every message with `Len ≥ 1` the predicate `0 ≤ offset ≤ 7` and
`0 ≤ nextchar < Len` holds in the state right after construction (where `offset = 0`
and `nextchar = 0`), is preserved by every invocation of `scroll` whatever raster
line it reads, and so holds after every sequence of invocations. -/
theorem C2_invariant (mem : Nat → Nat) (msg : List Nat) (lLen : Int) (v : Nat)
    (hLen : 1 ≤ lLen - 1) :
    (Scroller msg lLen v (boot mem)).offset = 0 ∧
    (Scroller msg lLen v (boot mem)).nextchar = 0 ∧
    Inv (Scroller msg lLen v (boot mem)) ∧
    (∀ (s : State) (l : Nat), Inv s → Inv (scroll l s)) ∧
    (∀ ls : List Nat, Inv (run ls (Scroller msg lLen v (boot mem)))) := by
  have ho := ctor_boot_offset mem msg lLen v
  have hn := ctor_boot_nextchar mem msg lLen v
  have hL := ctor_Len msg lLen v (boot mem) (by omega)
  have hI : Inv (Scroller msg lLen v (boot mem)) := by
    refine ⟨by omega, by omega, ?_⟩
    rw [hn, hL]; push_cast; omega
  exact ⟨ho, hn, hI, fun s l h => scroll_Inv l s h, fun ls => run_Inv ls _ hI⟩

/-- C2, witness: the message "ABCD" with its terminator, `Len = 4`. -/
theorem C2_invariant_witness :
    (1 : Int) ≤ 5 - 1 ∧
    ∀ ls : List Nat, Inv (run ls (Scroller [65, 66, 67, 68, 0] 5 0xC000 (boot fun _ => 0))) :=
  ⟨by decide, (C2_invariant (fun _ => 0) [65, 66, 67, 68, 0] 5 0xC000 (by decide)).2.2.2.2⟩

/-- A top invocation in a state with `offset = 0` is a character-boundary event: each of
the cells 960..998 gets the old content of its right neighbour, cell 999 gets
`Message[old nextchar]`, `offset` becomes 7; and when `old nextchar + 1 < 256`, or
`Len ≤ 256`, `nextchar` becomes `old nextchar + 1`, reset to 0 when that has reached
`Len`. -/
theorem shift_at_offset_zero (s : State) (l : Nat) (hl : l < 10) (ho : s.offset = 0) :
    (∀ j, j < 39 →
      (scroll l s).mem (DEFAULT_SCREEN + 960 + j) = s.mem (DEFAULT_SCREEN + 960 + j + 1)) ∧
    (scroll l s).mem (DEFAULT_SCREEN + 999) = s.Message.getD s.nextchar 0 ∧
    (scroll l s).offset = 7 ∧
    (s.nextchar + 1 < 256 ∨ (s.nextchar < 256 ∧ s.Len ≤ 256) →
      (scroll l s).nextchar
        = if s.Len ≤ ((s.nextchar + 1 : Nat) : Int) then 0 else s.nextchar + 1) := by
  have hs : isShift l s = true := by
    unfold isShift toInt8
    rw [ho]
    simp [hl]
  have hn : (scroll l s).nextchar
      = (if s.Len ≤ (((s.nextchar + 1) % 256 : Nat) : Int) then 0 else (s.nextchar + 1) % 256) := by
    rw [scroll_nextchar, hs]; rfl
  refine ⟨fun j hj => scroll_shift_row l s hs j hj, scroll_shift_cell l s hs, ?_, ?_⟩
  · rw [scroll_offset, if_pos hl, if_pos (isShift_top l s hs).2]
  · intro h
    rw [hn]
    rcases h with h | ⟨h1, h2⟩
    · rw [Nat.mod_eq_of_lt h]
    · by_cases h3 : s.nextchar + 1 < 256
      · rw [Nat.mod_eq_of_lt h3]
      · have h4 : s.nextchar + 1 = 256 := by omega
        rw [h4]
        simp only [Nat.mod_self]
        split <;> split <;> first | rfl | (push_cast at *; omega)

/-- C3, the code at the failing input.  With a message of 300 characters
(`lLen = 301`, `Len = 300`), after 2040 top invocations the state has `offset = 0` and
`nextchar = 255`; the next top invocation, a character-boundary event, leaves
`nextchar = 0` and not `old nextchar + 1 = 256`, although 256 has not reached `Len`:
the 8-bit counter wraps and the text restarts after 256 of its 300 characters. -/
theorem C3_failing_input :
    (run (List.replicate 2040 0)
        (Scroller (List.replicate 301 1) 301 0xC000 (boot fun _ => 0))).offset = 0 ∧
    (run (List.replicate 2040 0)
        (Scroller (List.replicate 301 1) 301 0xC000 (boot fun _ => 0))).nextchar = 255 ∧
    (run (List.replicate 2040 0)
        (Scroller (List.replicate 301 1) 301 0xC000 (boot fun _ => 0))).Len = 300 ∧
    (scroll 0 (run (List.replicate 2040 0)
        (Scroller (List.replicate 301 1) 301 0xC000 (boot fun _ => 0)))).nextchar = 0 ∧
    ¬ ((scroll 0 (run (List.replicate 2040 0)
        (Scroller (List.replicate 301 1) 301 0xC000 (boot fun _ => 0)))).nextchar
        = if (300 : Int) ≤ ((255 + 1 : Nat) : Int) then 0 else 255 + 1) := by
  have ht : tops (List.replicate 2040 0) = 2040 := tops_replicate_top 2040 0 (by decide)
  have hn := nextchar_from_boot (fun _ => 0) (List.replicate 301 1) 301 0xC000
    (List.replicate 2040 0) (by decide)
  rw [ht] at hn
  have hn2 : (run (List.replicate 2040 0)
      (Scroller (List.replicate 301 1) 301 0xC000 (boot fun _ => 0))).nextchar = 255 := by
    rw [hn]; decide
  have ho : (run (List.replicate 2040 0)
      (Scroller (List.replicate 301 1) 301 0xC000 (boot fun _ => 0))).offset = 0 := by
    rw [run_offset _ _ (by rw [ctor_boot_offset]) (by rw [ctor_boot_offset]; decide),
      ctor_boot_offset, ht]
    decide
  have hL : (run (List.replicate 2040 0)
      (Scroller (List.replicate 301 1) 301 0xC000 (boot fun _ => 0))).Len = 300 := by
    rw [run_Len, ctor_Len _ _ _ _ (by decide)]; decide
  have hs : isShift 0 (run (List.replicate 2040 0)
      (Scroller (List.replicate 301 1) 301 0xC000 (boot fun _ => 0))) = true := by
    unfold isShift
    rw [ho]
    decide
  have h0 : (scroll 0 (run (List.replicate 2040 0)
      (Scroller (List.replicate 301 1) 301 0xC000 (boot fun _ => 0)))).nextchar = 0 := by
    rw [scroll_nextchar, hs, hn2, hL]
    decide
  refine ⟨ho, hn2, hL, h0, ?_⟩
  rw [h0]
  decide

/-- C4.  For every `Len ≥ 1` and every state reached from construction: every index
at which `Message` has been read is in `[0, Len)`; a character-boundary event reads
`Message` at `nextchar`, which is below `Len`, and stores that character in cell 999;
and when such an event makes `nextchar` reach `Len`, `nextchar` is 0 afterwards and
the next character-boundary event reads index 0 and stores `Message[0]`, so the
terminator `Message[Len]` is never read. -/
theorem C4_message_index_in_range (mem : Nat → Nat) (msg : List Nat) (lLen : Int) (v : Nat)
    (ls : List Nat) (hLen : 1 ≤ lLen - 1) :
    (∀ i ∈ fetches (run ls (Scroller msg lLen v (boot mem))).trace, (i : Int) < lLen - 1) ∧
    (∀ l, isShift l (run ls (Scroller msg lLen v (boot mem))) = true →
      fetches (scroll l (run ls (Scroller msg lLen v (boot mem)))).trace
        = (run ls (Scroller msg lLen v (boot mem))).nextchar
            :: fetches (run ls (Scroller msg lLen v (boot mem))).trace ∧
      ((run ls (Scroller msg lLen v (boot mem))).nextchar : Int) < lLen - 1 ∧
      (scroll l (run ls (Scroller msg lLen v (boot mem)))).mem (DEFAULT_SCREEN + 999)
        = msg.getD (run ls (Scroller msg lLen v (boot mem))).nextchar 0) ∧
    (∀ l ms l', isShift l (run ls (Scroller msg lLen v (boot mem))) = true →
      ((run ls (Scroller msg lLen v (boot mem))).nextchar : Int) + 1 = lLen - 1 →
      shiftCount ms (scroll l (run ls (Scroller msg lLen v (boot mem)))) = 0 →
      isShift l' (run ms (scroll l (run ls (Scroller msg lLen v (boot mem))))) = true →
      (scroll l (run ls (Scroller msg lLen v (boot mem)))).nextchar = 0 ∧
      fetches (scroll l' (run ms (scroll l (run ls (Scroller msg lLen v (boot mem)))))).trace
        = 0 :: fetches (run ms (scroll l (run ls (Scroller msg lLen v (boot mem))))).trace ∧
      (scroll l' (run ms (scroll l (run ls (Scroller msg lLen v (boot mem)))))).mem
          (DEFAULT_SCREEN + 999) = msg.getD 0 0) := by
  have hI := Inv_from_boot mem msg lLen v ls hLen
  have h256 := nextchar_lt_256 mem msg lLen v ls hLen
  have hL : (run ls (Scroller msg lLen v (boot mem))).Len = lLen - 1 := by
    rw [run_Len, ctor_Len _ _ _ _ (by omega)]
  have hM : (run ls (Scroller msg lLen v (boot mem))).Message = msg := by
    rw [run_Message, ctor_Message]
  have hF : ∀ i ∈ fetches (run ls (Scroller msg lLen v (boot mem))).trace,
      (i : Int) < lLen - 1 := by
    have h0 := Inv_from_boot mem msg lLen v [] hLen
    have h1 := run_fetches_lt ls (Scroller msg lLen v (boot mem)) h0
      (by rw [ctor_fetches]; intro i hi; cases hi)
    rw [ctor_Len _ _ _ _ (by omega)] at h1
    exact h1
  generalize run ls (Scroller msg lLen v (boot mem)) = s at hI h256 hL hM hF ⊢
  refine ⟨hF, fun l hs => ⟨?_, ?_, ?_⟩, fun l ms l' hs hn hc hs' => ?_⟩
  · rw [scroll_fetches, hs]; rfl
  · rw [← hL]; exact hI.2.2
  · rw [scroll_shift_cell l s hs, hM]
  · have h0 : (scroll l s).nextchar = 0 := by
      rw [scroll_nextchar, hs, hL]
      simp only [if_true]
      by_cases h3 : s.nextchar + 1 < 256
      · rw [Nat.mod_eq_of_lt h3, if_pos (by push_cast; omega)]
      · have h4 : s.nextchar + 1 = 256 := by omega
        rw [h4]
        simp
    have h1 : (run ms (scroll l s)).nextchar = 0 := by
      rw [run_nextchar_noshift ms _ hc, h0]
    have hM' : (run ms (scroll l s)).Message = msg := by
      rw [run_Message, scroll_Message, hM]
    refine ⟨h0, ?_, ?_⟩
    · rw [scroll_fetches, hs', h1]; rfl
    · rw [scroll_shift_cell _ _ hs', hM', h1]

/-- C4, witness: three invocations after construction with the message "ABCD". -/
theorem C4_message_index_in_range_witness :
    (1 : Int) ≤ 5 - 1 ∧
    ∀ i ∈ fetches (run [0, 241, 0] (Scroller [65, 66, 67, 68, 0] 5 0xC000
      (boot fun _ => 0))).trace, (i : Int) < 5 - 1 :=
  ⟨by decide,
    (C4_message_index_in_range (fun _ => 0) [65, 66, 67, 68, 0] 5 0xC000 [0, 241, 0]
      (by decide)).1⟩

/-- C5.  With `Message = "ABCD"` (codes 65..68 and the terminator) and `Len = 4`,
from the state right after construction: the first top invocation is a
character-boundary event; after one such event cell 999 holds 'A' (65) and
`nextchar = 1`; after four of them `nextchar = 0`; and the fifth reads `Message[0]`
and stores 'A' in cell 999 again.  Bottom invocations may be interleaved freely. -/
theorem C5_scenario_ABCD (mem : Nat → Nat) (v : Nat) :
    (Scroller [65, 66, 67, 68, 0] 5 v (boot mem)).Len = 4 ∧
    (∀ l, l < 10 → shiftCount [l] (Scroller [65, 66, 67, 68, 0] 5 v (boot mem)) = 1) ∧
    (∀ ls, shiftCount ls (Scroller [65, 66, 67, 68, 0] 5 v (boot mem)) = 1 →
      (run ls (Scroller [65, 66, 67, 68, 0] 5 v (boot mem))).mem (DEFAULT_SCREEN + 999) = 65 ∧
      (run ls (Scroller [65, 66, 67, 68, 0] 5 v (boot mem))).nextchar = 1) ∧
    (∀ ls, shiftCount ls (Scroller [65, 66, 67, 68, 0] 5 v (boot mem)) = 4 →
      (run ls (Scroller [65, 66, 67, 68, 0] 5 v (boot mem))).nextchar = 0) ∧
    (∀ ls l, shiftCount ls (Scroller [65, 66, 67, 68, 0] 5 v (boot mem)) = 4 →
      isShift l (run ls (Scroller [65, 66, 67, 68, 0] 5 v (boot mem))) = true →
      (scroll l (run ls (Scroller [65, 66, 67, 68, 0] 5 v (boot mem)))).mem
          (DEFAULT_SCREEN + 999) = 65 ∧
      fetches (scroll l (run ls (Scroller [65, 66, 67, 68, 0] 5 v (boot mem)))).trace
        = 0 :: fetches (run ls (Scroller [65, 66, 67, 68, 0] 5 v (boot mem))).trace) := by
  have hL : (Scroller [65, 66, 67, 68, 0] 5 v (boot mem)).Len = 4 := by
    rw [ctor_Len _ _ _ _ (by decide)]; decide
  have hM := ctor_Message [65, 66, 67, 68, 0] 5 v (boot mem)
  have hn := ctor_boot_nextchar mem [65, 66, 67, 68, 0] 5 v
  have ho := ctor_boot_offset mem [65, 66, 67, 68, 0] 5 v
  have hp : period 4 = 4 := by decide
  generalize Scroller [65, 66, 67, 68, 0] 5 v (boot mem) = s0 at hL hM hn ho ⊢
  have hnext : ∀ ls, (run ls s0).nextchar = shiftCount ls s0 % 4 := by
    intro ls
    rw [run_nextchar ls s0 (by rw [hL]; decide) (by rw [hL, hn]; decide), hL, hn, hp,
      Nat.zero_add]
  refine ⟨hL, fun l hl => ?_, fun ls h1 => ⟨?_, ?_⟩, fun ls h4 => ?_, fun ls l h4 hs => ⟨?_, ?_⟩⟩
  · have hs : isShift l s0 = true := (isShift_iff l s0 (by omega) (by omega)).2 ⟨hl, ho⟩
    simp [shiftCount, hs]
  · rw [run_cell999 ls s0 0 (by rw [hL]; decide) (by rw [hL, hn]; decide) h1, hM, hn, hL, hp]
    rfl
  · rw [hnext, h1]
  · rw [hnext, h4]
  · rw [scroll_shift_cell _ _ hs, run_Message, hM, hnext, h4]
    rfl
  · rw [scroll_fetches, hs, hnext, h4]
    rfl

/-- C5, witness: 32 top invocations (four character-boundary events) and then the
top invocation that is the fifth. -/
theorem C5_scenario_ABCD_witness :
    (run (List.replicate 32 0) (Scroller [65, 66, 67, 68, 0] 5 0xC000
      (boot fun _ => 0))).nextchar = 0 ∧
    (scroll 0 (run (List.replicate 32 0) (Scroller [65, 66, 67, 68, 0] 5 0xC000
      (boot fun _ => 0)))).mem (DEFAULT_SCREEN + 999) = 65 := by
  have hc : shiftCount (List.replicate 32 0)
      (Scroller [65, 66, 67, 68, 0] 5 0xC000 (boot fun _ => 0)) = 4 := by
    rw [shiftCount_from_boot, tops_replicate_top 32 0 (by decide)]
  have hs : isShift 0 (run (List.replicate 32 0)
      (Scroller [65, 66, 67, 68, 0] 5 0xC000 (boot fun _ => 0))) = true := by
    have hr := run_offset_range (List.replicate 32 0)
      (Scroller [65, 66, 67, 68, 0] 5 0xC000 (boot fun _ => 0))
      (by rw [ctor_boot_offset]) (by rw [ctor_boot_offset]; decide)
    rw [isShift_iff _ _ hr.1 hr.2,
      run_offset _ _ (by rw [ctor_boot_offset]) (by rw [ctor_boot_offset]; decide),
      ctor_boot_offset, tops_replicate_top 32 0 (by decide)]
    decide
  exact ⟨(C5_scenario_ABCD (fun _ => 0) 0xC000).2.2.2.1 _ hc,
    ((C5_scenario_ABCD (fun _ => 0) 0xC000).2.2.2.2 _ 0 hc hs).1⟩

/-- C6.  In every state, right after a top invocation of `scroll` the low three bits
of screen control register #2 are 0.  When the state satisfies `0 ≤ offset ≤ 7` (as
every reachable state does), right after the bottom invocation that follows, those
bits hold the value `offset` has at that bottom invocation, a value in 0..7 that the
bottom invocation leaves as it is. -/
theorem C6_scroll_register (s : State) (t b : Nat) (ht : t < 10) (hb : 10 ≤ b) :
    (scroll t s).mem ScrCtrl2 % 8 = 0 ∧
    (0 ≤ s.offset → s.offset ≤ 7 →
      0 ≤ (scroll t s).offset ∧ (scroll t s).offset ≤ 7 ∧
      (((scroll b (scroll t s)).mem ScrCtrl2 % 8 : Nat) : Int) = (scroll t s).offset ∧
      (scroll b (scroll t s)).offset = (scroll t s).offset) := by
  have h1 := scroll_top_ScrCtrl2 t s ht
  have h2 := land_F0 (s.mem ScrCtrl2)
  refine ⟨by omega, fun h0 h7 => ?_⟩
  have hr := scroll_offset_range t s h0 h7
  have hb2 : ¬ b < 10 := by omega
  refine ⟨hr.1, hr.2, ?_, ?_⟩
  · rw [scroll_bottom_ScrCtrl2 b _ hb2, h1, h2]
    omega
  · rw [scroll_offset, if_neg hb2]

/-- C6, witness: the first top invocation (line 0) and the bottom invocation (line 241)
that follows it: the field reads 0, then the value of `offset`. -/
theorem C6_scroll_register_witness :
    (0 < 10) ∧ (10 ≤ 241) ∧
    (scroll 0 (Scroller [65, 66, 67, 68, 0] 5 0xC000 (boot fun _ => 0xC8))).mem ScrCtrl2 % 8
      = 0 ∧
    (((scroll 241 (scroll 0 (Scroller [65, 66, 67, 68, 0] 5 0xC000
        (boot fun _ => 0xC8)))).mem ScrCtrl2 % 8 : Nat) : Int)
      = (scroll 0 (Scroller [65, 66, 67, 68, 0] 5 0xC000 (boot fun _ => 0xC8))).offset :=
  ⟨by decide, by decide,
    (C6_scroll_register (Scroller [65, 66, 67, 68, 0] 5 0xC000 (boot fun _ => 0xC8)) 0 241
      (by decide) (by decide)).1,
    ((C6_scroll_register (Scroller [65, 66, 67, 68, 0] 5 0xC000 (boot fun _ => 0xC8)) 0 241
      (by decide) (by decide)).2
        (le_of_eq (ctor_boot_offset _ _ _ _).symm)
        (le_trans (le_of_eq (ctor_boot_offset _ _ _ _)) (by decide))).2.2.1⟩

/-- C7.  Every invocation of `scroll` stores exactly one value to the raster-compare
register: 241 when it takes the top branch (raster line read below 10) and 0
otherwise; so when the triggers alternate, top first, the compare value after the
invocation with index `n` (counted from 0) is 241 for even `n` and 0 for odd `n`. -/
theorem C7_raster_compare (s : State) (l : Nat) :
    (scroll l s).mem RasterLine1 = (if l < 10 then 241 else 0) ∧
    storesTo RasterLine1 (scroll l s).trace
      = (if l < 10 then 241 else 0) :: storesTo RasterLine1 s.trace ∧
    (∀ (ls : List Nat) (k : Nat), alternating true (ls ++ [k]) = true →
      (run (ls ++ [k]) s).mem RasterLine1 = if ls.length % 2 = 0 then 241 else 0) := by
  refine ⟨scroll_RasterLine1 l s, scroll_storesTo_raster l s, fun ls k h => ?_⟩
  have h2 := alternating_last true ls k h
  rw [run_append, run_cons, run_nil, scroll_RasterLine1]
  by_cases hp : ls.length % 2 = 0
  · rw [if_pos hp] at h2
    rw [if_pos hp, if_pos (by simpa using h2)]
  · rw [if_neg hp] at h2
    rw [if_neg hp, if_neg (by simpa using h2)]

/-- C8.  Whatever memory held before, after `clear_screen` the 1000 cells at offsets
0..999 from `$0400` hold the space code `0x20` and every cell outside that range is
unchanged; the same 1000 cells hold `0x20` after construction, before any interrupt
has run. -/
theorem C8_clear_screen (s : State) (msg : List Nat) (lLen : Int) (v : Nat) :
    (∀ i, i < 1000 → (clear_screen s).mem (DEFAULT_SCREEN + i) = 0x20) ∧
    (∀ a, a < DEFAULT_SCREEN ∨ DEFAULT_SCREEN + 1000 ≤ a → (clear_screen s).mem a = s.mem a) ∧
    (∀ i, i < 1000 → (run [] (Scroller msg lLen v s)).mem (DEFAULT_SCREEN + i) = 0x20) := by
  refine ⟨fun i hi => ?_, fun a ha => ?_, fun i hi => ?_⟩
  · unfold clear_screen
    rw [memset_mem, if_pos (by omega)]
  · unfold clear_screen
    rw [memset_mem, if_neg (by omega)]
  · rw [run_nil]
    exact ctor_screen msg lLen v s i hi

/-- C9.  An invocation of `scroll` changes `nextchar` only if it is a top invocation
in which `--offset` is negative, which for `0 ≤ offset ≤ 7` means that `offset` was 0
before it; and in every stretch of invocations holding 8 top invocations, started in
a state with `0 ≤ offset ≤ 7` (so in every state reached from construction), exactly
one invocation is such an underflow. -/
theorem C9_underflow_once_in_eight (s : State) (l : Nat) :
    ((scroll l s).nextchar ≠ s.nextchar → l < 10 ∧ toInt8 (s.offset - 1) < 0) ∧
    (0 ≤ s.offset → s.offset ≤ 7 → (toInt8 (s.offset - 1) < 0 ↔ s.offset = 0)) ∧
    (0 ≤ s.offset → s.offset ≤ 7 → ∀ ls, tops ls = 8 → shiftCount ls s = 1) ∧
    (∀ (mem : Nat → Nat) (msg : List Nat) (lLen : Int) (v : Nat) (ps ls : List Nat),
      tops ls = 8 → shiftCount ls (run ps (Scroller msg lLen v (boot mem))) = 1) := by
  refine ⟨fun hne => ?_, fun h0 h7 => ?_, fun h0 h7 ls ht => ?_,
    fun mem msg lLen v ps ls ht => ?_⟩
  · by_contra hc
    apply hne
    rw [scroll_nextchar]
    have : isShift l s = false := by
      apply Bool.eq_false_iff.2
      intro h
      exact hc (isShift_top l s h)
    rw [this]
    simp
  · unfold toInt8
    constructor <;> intro h <;> omega
  · rw [shiftCount_eq ls s h0 h7, ht]
    omega
  · have hr := run_offset_range ps (Scroller msg lLen v (boot mem))
      (by rw [ctor_boot_offset]) (by rw [ctor_boot_offset]; omega)
    rw [shiftCount_eq ls _ hr.1 hr.2, ht]
    omega

/-- C9, witness: eight top invocations with bottom invocations in between, started two
invocations after construction, hold exactly one underflow. -/
theorem C9_underflow_once_in_eight_witness :
    tops [0, 241, 0, 241, 0, 241, 0, 241, 0, 241, 0, 241, 0, 241, 0, 241] = 8 ∧
    shiftCount [0, 241, 0, 241, 0, 241, 0, 241, 0, 241, 0, 241, 0, 241, 0, 241]
      (run [0, 241] (Scroller [65, 66, 67, 68, 0] 5 0xC000 (boot fun _ => 0))) = 1 :=
  ⟨by decide,
    (C9_underflow_once_in_eight (Scroller [65, 66, 67, 68, 0] 5 0xC000 (boot fun _ => 0))
      0).2.2.2 (fun _ => 0) [65, 66, 67, 68, 0] 5 0xC000 [0, 241]
      [0, 241, 0, 241, 0, 241, 0, 241, 0, 241, 0, 241, 0, 241, 0, 241] (by decide)⟩

/-- C10.  For every 16-bit handler address `v` and every prior state, `set_vb_inter v`
stores `0x7F` to both CIA interrupt-control registers, leaves screen control #1 with
bit 7 cleared and bits 0..6 as they were, the raster-compare register at 0, the video
interrupt-enable register at 1, and the vector cells with `mem[$314] = v mod 256` and
`mem[$315] = v div 256`, so that `mem[$314] + 256 * mem[$315] = v`. -/
theorem C10_set_vb_inter (s : State) (v : Nat) (hv : v < 65536) :
    (set_vb_inter v s).mem InterCtrl1 = 0x7F ∧
    (set_vb_inter v s).mem InterCtrl2 = 0x7F ∧
    storesTo InterCtrl1 (set_vb_inter v s).trace = 0x7F :: storesTo InterCtrl1 s.trace ∧
    storesTo InterCtrl2 (set_vb_inter v s).trace = 0x7F :: storesTo InterCtrl2 s.trace ∧
    (set_vb_inter v s).mem ScrCtrl1 = s.mem ScrCtrl1 &&& 0x7F ∧
    (set_vb_inter v s).mem ScrCtrl1 = s.mem ScrCtrl1 % 128 ∧
    ((set_vb_inter v s).mem ScrCtrl1).testBit 7 = false ∧
    (∀ k, k < 7 → ((set_vb_inter v s).mem ScrCtrl1).testBit k = (s.mem ScrCtrl1).testBit k) ∧
    (set_vb_inter v s).mem RasterLine1 = 0 ∧
    (set_vb_inter v s).mem InterCtrl = 1 ∧
    (set_vb_inter v s).mem 0x314 = v % 256 ∧
    (set_vb_inter v s).mem 0x315 = v / 256 ∧
    (set_vb_inter v s).mem 0x314 + 256 * (set_vb_inter v s).mem 0x315 = v := by
  have e1 : (set_vb_inter v s).mem ScrCtrl1 = s.mem ScrCtrl1 &&& 0x7F := by
    rw [set_vb_inter_mem]; rfl
  have e2 : (set_vb_inter v s).mem 0x314 = v % 256 := by
    rw [set_vb_inter_mem, Nat.mod_eq_of_lt hv]; rfl
  have e3 : (set_vb_inter v s).mem 0x315 = v / 256 := by
    rw [set_vb_inter_mem, Nat.mod_eq_of_lt hv, Nat.mod_eq_of_lt (by omega)]; rfl
  refine ⟨by rw [set_vb_inter_mem]; rfl, by rw [set_vb_inter_mem]; rfl, rfl, rfl, e1, ?_, ?_, ?_,
    by rw [set_vb_inter_mem]; rfl, by rw [set_vb_inter_mem]; rfl, e2, e3, ?_⟩
  · rw [e1, land_7F]
  · rw [e1, land_7F]
    have := Nat.testBit_mod_two_pow (s.mem ScrCtrl1) 7 7
    simpa using this
  · intro k hk
    rw [e1, land_7F]
    have := Nat.testBit_mod_two_pow (s.mem ScrCtrl1) 7 k
    simpa [hk] using this
  · rw [e2, e3]; omega

/-- C10, witness: the handler at address `$C123`. -/
theorem C10_set_vb_inter_witness :
    (0xC123 < 65536) ∧
    (set_vb_inter 0xC123 (boot fun _ => 0xFF)).mem 0x314 = 0x23 ∧
    (set_vb_inter 0xC123 (boot fun _ => 0xFF)).mem 0x315 = 0xC1 ∧
    (set_vb_inter 0xC123 (boot fun _ => 0xFF)).mem ScrCtrl1 = 0xFF % 128 :=
  ⟨by decide, (C10_set_vb_inter (boot fun _ => 0xFF) 0xC123 (by decide)).2.2.2.2.2.2.2.2.2.2.1,
    (C10_set_vb_inter (boot fun _ => 0xFF) 0xC123 (by decide)).2.2.2.2.2.2.2.2.2.2.2.1,
    (C10_set_vb_inter (boot fun _ => 0xFF) 0xC123 (by decide)).2.2.2.2.2.1⟩

/-! ## Addresses accessed by one invocation -/

@[simp] theorem storeAddrs_nil : storeAddrs [] = [] := rfl
@[simp] theorem storeAddrs_store (a v : Nat) (t : List Access) :
    storeAddrs (Access.store a v :: t) = a :: storeAddrs t := rfl
@[simp] theorem storeAddrs_load (a : Nat) (t : List Access) :
    storeAddrs (Access.load a :: t) = storeAddrs t := rfl
@[simp] theorem storeAddrs_fetch (i : Nat) (t : List Access) :
    storeAddrs (Access.fetch i :: t) = storeAddrs t := rfl

@[simp] theorem loadAddrs_nil : loadAddrs [] = [] := rfl
@[simp] theorem loadAddrs_store (a v : Nat) (t : List Access) :
    loadAddrs (Access.store a v :: t) = loadAddrs t := rfl
@[simp] theorem loadAddrs_load (a : Nat) (t : List Access) :
    loadAddrs (Access.load a :: t) = a :: loadAddrs t := rfl
@[simp] theorem loadAddrs_fetch (i : Nat) (t : List Access) :
    loadAddrs (Access.fetch i :: t) = loadAddrs t := rfl

theorem copyLoop_storeAddrs (a n : Nat) (s : State) :
    storeAddrs (copyLoop a n s).trace
      = ((List.range' a n).reverse.map fun i => DEFAULT_SCREEN + i) ++ storeAddrs s.trace := by
  induction n generalizing a s with
  | zero => rfl
  | succ n ih =>
    rw [copyLoop_succ, ih, poke_trace, storeAddrs_store, touch_trace, storeAddrs_load,
      List.range'_succ, List.reverse_cons, List.map_append, List.append_assoc]
    rfl

theorem copyLoop_loadAddrs (a n : Nat) (s : State) :
    loadAddrs (copyLoop a n s).trace
      = ((List.range' a n).reverse.map fun i => DEFAULT_SCREEN + i + 1) ++ loadAddrs s.trace := by
  induction n generalizing a s with
  | zero => rfl
  | succ n ih =>
    rw [copyLoop_succ, ih, poke_trace, loadAddrs_store, touch_trace, loadAddrs_load,
      List.range'_succ, List.reverse_cons, List.map_append, List.append_assoc]
    rfl

theorem scroll_trace_top_shift (l : Nat) (s : State) (hl : l < 10)
    (ho : toInt8 (s.offset - 1) < 0) :
    (scroll l s).trace =
      Access.store InterStat 1 ::
        (shiftEvent { poke RasterLine1 241
            (poke ScrCtrl2 (s.mem ScrCtrl2 &&& 0xF0) (touch ScrCtrl2 (touch RasterLine1 s)))
          with offset := toInt8 (s.offset - 1) }).trace := by
  unfold scroll scrollTop
  simp only [hl, if_true, poke_trace, poke_offset, touch_offset, touch_mem, ho]

theorem scroll_trace_top_plain (l : Nat) (s : State) (hl : l < 10)
    (ho : ¬ toInt8 (s.offset - 1) < 0) :
    (scroll l s).trace =
      Access.store InterStat 1 :: Access.store RasterLine1 241 ::
        Access.store ScrCtrl2 (s.mem ScrCtrl2 &&& 0xF0) :: Access.load ScrCtrl2 ::
        Access.load RasterLine1 :: s.trace := by
  unfold scroll scrollTop
  simp only [hl, if_true, poke_trace, poke_offset, touch_offset, touch_mem, touch_trace, ho,
    if_false]

theorem scroll_trace_bottom (l : Nat) (s : State) (hl : ¬ l < 10) :
    (scroll l s).trace =
      Access.store InterStat 1 :: Access.store RasterLine1 0 ::
        Access.store ScrCtrl2 (((s.mem ScrCtrl2 : Int) + s.offset) % 256).toNat ::
        Access.load ScrCtrl2 :: Access.load RasterLine1 :: s.trace := by
  unfold scroll scrollBottom
  simp only [hl, if_false, poke_trace, touch_offset, touch_mem, touch_trace]

theorem scroll_storeAddrs (l : Nat) (s : State) :
    storeAddrs (scroll l s).trace =
      (if isShift l s then
        InterStat :: (DEFAULT_SCREEN + 39 + 24 * 40) ::
          (((List.range' (24 * 40) 39).reverse.map fun i => DEFAULT_SCREEN + i)
            ++ [RasterLine1, ScrCtrl2])
      else [InterStat, RasterLine1, ScrCtrl2]) ++ storeAddrs s.trace := by
  by_cases hl : l < 10
  · by_cases ho : toInt8 (s.offset - 1) < 0
    · have hs : isShift l s = true := by unfold isShift; simp [hl, ho]
      rw [scroll_trace_top_shift l s hl ho, hs, shiftEvent_trace]
      simp only [storeAddrs_store, storeAddrs_fetch, copyLoop_storeAddrs, poke_trace,
        touch_trace, storeAddrs_load, if_true, List.cons_append, List.append_assoc,
        List.nil_append]
    · have hs : isShift l s = false := by unfold isShift; simp [hl, ho]
      rw [scroll_trace_top_plain l s hl ho, hs]
      simp
  · have hs : isShift l s = false := by unfold isShift; simp [hl]
    rw [scroll_trace_bottom l s hl, hs]
    simp

theorem scroll_loadAddrs (l : Nat) (s : State) :
    loadAddrs (scroll l s).trace =
      (if isShift l s then
        ((List.range' (24 * 40) 39).reverse.map fun i => DEFAULT_SCREEN + i + 1)
          ++ [ScrCtrl2, RasterLine1]
      else [ScrCtrl2, RasterLine1]) ++ loadAddrs s.trace := by
  by_cases hl : l < 10
  · by_cases ho : toInt8 (s.offset - 1) < 0
    · have hs : isShift l s = true := by unfold isShift; simp [hl, ho]
      rw [scroll_trace_top_shift l s hl ho, hs, shiftEvent_trace]
      simp only [loadAddrs_store, loadAddrs_fetch, copyLoop_loadAddrs, poke_trace,
        touch_trace, loadAddrs_load, if_true, List.cons_append, List.append_assoc,
        List.nil_append]
    · have hs : isShift l s = false := by unfold isShift; simp [hl, ho]
      rw [scroll_trace_top_plain l s hl ho, hs]
      simp
  · have hs : isShift l s = false := by unfold isShift; simp [hl]
    rw [scroll_trace_bottom l s hl, hs]
    simp

theorem scroll_trace_head (l : Nat) (s : State) :
    (scroll l s).trace.head? = some (Access.store InterStat 1) := rfl

theorem scroll_storesTo_InterStat (l : Nat) (s : State) :
    storesTo InterStat (scroll l s).trace = 1 :: storesTo InterStat s.trace := by
  have hr : DEFAULT_SCREEN + 24 * 40 + 39 < InterStat := by decide
  have h1 : RasterLine1 ≠ InterStat := by decide
  have h2 : ScrCtrl2 ≠ InterStat := by decide
  by_cases hl : l < 10
  · by_cases ho : toInt8 (s.offset - 1) < 0
    · rw [scroll_trace_top_shift l s hl ho, storesTo_store, if_pos rfl,
        shiftEvent_storesTo _ _ hr]
      simp only [poke_trace, touch_trace, storesTo_store, storesTo_load, if_neg h1, if_neg h2]
    · rw [scroll_trace_top_plain l s hl ho]
      simp only [storesTo_store, storesTo_load, if_neg h1, if_neg h2, if_true]
  · rw [scroll_trace_bottom l s hl]
    simp only [storesTo_store, storesTo_load, if_neg h1, if_neg h2, if_true]

theorem testBit_F0_low (k : Nat) (hk : k < 4) : (0xF0 : Nat).testBit k = false := by
  interval_cases k <;> decide

theorem testBit_F0_high (k : Nat) (h4 : 4 ≤ k) (h8 : k < 8) : (0xF0 : Nat).testBit k = true := by
  interval_cases k <;> decide

theorem testBit_add_low (q o k : Nat) (ho : o < 8) (hk : 3 ≤ k) :
    (16 * q + o).testBit k = (16 * q).testBit k := by
  have h1 := Nat.testBit_mul_pow_two_add (2 * q) (show o < 2 ^ 3 by omega) k
  have h2 := Nat.testBit_mul_pow_two_add (2 * q) (show 0 < 2 ^ 3 by omega) k
  have e1 : 2 ^ 3 * (2 * q) + o = 16 * q + o := by omega
  have e2 : 2 ^ 3 * (2 * q) + 0 = 16 * q := by omega
  rw [e1, if_neg (by omega)] at h1
  rw [e2, if_neg (by omega)] at h2
  rw [h1, h2]

/-- C11.  Every invocation of `scroll`, on either branch and with or without a
character-boundary event, ends with a store of 1 to the video interrupt-status
register `$D019`: that store is the newest entry of the access log, it is the only
store the invocation makes to `$D019`, and the register holds 1 afterwards. -/
theorem C11_acknowledge_last (s : State) (l : Nat) :
    (scroll l s).trace.head? = some (Access.store InterStat 1) ∧
    (storeAddrs (scroll l s).trace).head? = some InterStat ∧
    storesTo InterStat (scroll l s).trace = 1 :: storesTo InterStat s.trace ∧
    (scroll l s).mem InterStat = 1 := by
  refine ⟨scroll_trace_head l s, rfl, scroll_storesTo_InterStat l s, ?_⟩
  by_cases hl : l < 10
  · rw [scroll_mem_top l s hl, if_pos rfl]
  · rw [scroll_mem_bottom l s hl, if_pos rfl]

/-- C12.  No invocation of `scroll` changes a character-RAM cell 0..959.  The stores of
one invocation go to `$D019`, `$D012`, `$D016` and, in a character-boundary event, to
the cells 960..999; its loads come from `$D016`, `$D012` and, in a character-boundary
event, from the cells 961..999.  So every character-RAM cell it writes is one of
960..999 and every character-RAM cell it reads is one of 961..999. -/
theorem C12_only_bottom_row (s : State) (l : Nat) :
    (∀ i, i < 960 → (scroll l s).mem (DEFAULT_SCREEN + i) = s.mem (DEFAULT_SCREEN + i)) ∧
    storeAddrs (scroll l s).trace =
      (if isShift l s then
        InterStat :: (DEFAULT_SCREEN + 39 + 24 * 40) ::
          (((List.range' (24 * 40) 39).reverse.map fun i => DEFAULT_SCREEN + i)
            ++ [RasterLine1, ScrCtrl2])
      else [InterStat, RasterLine1, ScrCtrl2]) ++ storeAddrs s.trace ∧
    (∀ a ∈ (if isShift l s then
        InterStat :: (DEFAULT_SCREEN + 39 + 24 * 40) ::
          (((List.range' (24 * 40) 39).reverse.map fun i => DEFAULT_SCREEN + i)
            ++ [RasterLine1, ScrCtrl2])
      else [InterStat, RasterLine1, ScrCtrl2]),
      DEFAULT_SCREEN ≤ a → a < DEFAULT_SCREEN + 1000 →
        DEFAULT_SCREEN + 960 ≤ a ∧ a ≤ DEFAULT_SCREEN + 999) ∧
    loadAddrs (scroll l s).trace =
      (if isShift l s then
        ((List.range' (24 * 40) 39).reverse.map fun i => DEFAULT_SCREEN + i + 1)
          ++ [ScrCtrl2, RasterLine1]
      else [ScrCtrl2, RasterLine1]) ++ loadAddrs s.trace ∧
    (∀ a ∈ (if isShift l s then
        ((List.range' (24 * 40) 39).reverse.map fun i => DEFAULT_SCREEN + i + 1)
          ++ [ScrCtrl2, RasterLine1]
      else [ScrCtrl2, RasterLine1]),
      DEFAULT_SCREEN ≤ a → a < DEFAULT_SCREEN + 1000 →
        DEFAULT_SCREEN + 961 ≤ a ∧ a ≤ DEFAULT_SCREEN + 999) := by
  refine ⟨fun i hi => ?_, scroll_storeAddrs l s, fun a ha h1 h2 => ?_, scroll_loadAddrs l s,
    fun a ha h1 h2 => ?_⟩
  · by_cases hl : l < 10
    · rw [scroll_mem_top l s hl]
      simp only [DEFAULT_SCREEN, InterStat, RasterLine1, ScrCtrl2]
      rw [if_neg (by omega)]
      split
      · rw [if_neg (by omega), if_neg (by omega), if_neg (by omega), if_neg (by omega)]
      · rw [if_neg (by omega), if_neg (by omega)]
    · rw [scroll_mem_bottom l s hl]
      simp only [DEFAULT_SCREEN, InterStat, RasterLine1, ScrCtrl2]
      rw [if_neg (by omega), if_neg (by omega), if_neg (by omega)]
  · simp only [DEFAULT_SCREEN, InterStat, RasterLine1, ScrCtrl2] at ha h1 h2 ⊢
    split at ha
    · simp only [List.mem_cons, List.mem_append, List.mem_map, List.mem_reverse,
        List.mem_range'_1, List.mem_singleton, List.not_mem_nil, or_false] at ha
      rcases ha with h | h | ⟨i, hi, h⟩ | h | h <;> omega
    · simp only [List.mem_cons, List.mem_singleton, List.not_mem_nil, or_false] at ha
      rcases ha with h | h | h <;> omega
  · simp only [DEFAULT_SCREEN, InterStat, RasterLine1, ScrCtrl2] at ha h1 h2 ⊢
    split at ha
    · simp only [List.mem_cons, List.mem_append, List.mem_map, List.mem_reverse,
        List.mem_range'_1, List.mem_singleton, List.not_mem_nil, or_false] at ha
      rcases ha with ⟨i, hi, h⟩ | h | h <;> omega
    · simp only [List.mem_cons, List.mem_singleton, List.not_mem_nil, or_false] at ha
      rcases ha with h | h <;> omega

/-- C16.  A bottom invocation of `scroll` (raster line read 10 or more) leaves `offset`,
`nextchar`, `Message`, `Len` and every memory cell other than screen control #2, the
raster-compare register and the interrupt-status register as they were; in
particular all 1000 character-RAM cells are unchanged, and its three stores go to
those three registers. -/
theorem C16_bottom_frame (s : State) (l : Nat) (hl : 10 ≤ l) :
    (scroll l s).offset = s.offset ∧
    (scroll l s).nextchar = s.nextchar ∧
    (scroll l s).Message = s.Message ∧
    (scroll l s).Len = s.Len ∧
    (∀ x, x ≠ ScrCtrl2 → x ≠ RasterLine1 → x ≠ InterStat → (scroll l s).mem x = s.mem x) ∧
    (∀ i, i < 1000 → (scroll l s).mem (DEFAULT_SCREEN + i) = s.mem (DEFAULT_SCREEN + i)) ∧
    storeAddrs (scroll l s).trace = [InterStat, RasterLine1, ScrCtrl2] ++ storeAddrs s.trace := by
  have hl2 : ¬ l < 10 := by omega
  have hs : isShift l s = false := by unfold isShift; simp [hl2]
  have hm : ∀ x, x ≠ ScrCtrl2 → x ≠ RasterLine1 → x ≠ InterStat →
      (scroll l s).mem x = s.mem x := by
    intro x h1 h2 h3
    rw [scroll_mem_bottom l s hl2, if_neg h3, if_neg h2, if_neg h1]
  refine ⟨?_, ?_, scroll_Message l s, scroll_Len l s, hm, fun i hi => ?_, ?_⟩
  · rw [scroll_offset, if_neg hl2]
  · rw [scroll_nextchar, hs]; rfl
  · apply hm <;> simp only [DEFAULT_SCREEN, InterStat, RasterLine1, ScrCtrl2] <;> omega
  · rw [scroll_storeAddrs, hs]; rfl

/-- C16, witness: a bottom invocation at line 241 right after construction. -/
theorem C16_bottom_frame_witness :
    (10 ≤ 241) ∧
    (scroll 241 (Scroller [65, 66, 67, 68, 0] 5 0xC000 (boot fun _ => 0))).nextchar
      = (Scroller [65, 66, 67, 68, 0] 5 0xC000 (boot fun _ => 0)).nextchar :=
  ⟨by decide,
    (C16_bottom_frame (Scroller [65, 66, 67, 68, 0] 5 0xC000 (boot fun _ => 0)) 241
      (by decide)).2.1⟩

/-- C17.  A top invocation of `scroll` sets screen control #2 to its old value AND
`0xF0`: bits 0..3 (the three scroll bits and the column select) are cleared and bits
4..7 are unchanged.  When the state satisfies `0 ≤ offset ≤ 7` and a bottom invocation
follows directly, the addition `ScrCtrl2 += offset` does not carry: the sum is below
256, the register equals (value before the top invocation AND `0xF0`) plus `offset`,
and bits 3 and up are as the top invocation left them. -/
theorem C17_scroll_register_bits (s : State) (t b : Nat) (ht : t < 10) (hb : 10 ≤ b) :
    (scroll t s).mem ScrCtrl2 = s.mem ScrCtrl2 &&& 0xF0 ∧
    (∀ k, k < 4 → ((scroll t s).mem ScrCtrl2).testBit k = false) ∧
    (∀ k, 4 ≤ k → k < 8 →
      ((scroll t s).mem ScrCtrl2).testBit k = (s.mem ScrCtrl2).testBit k) ∧
    (0 ≤ s.offset → s.offset ≤ 7 →
      (s.mem ScrCtrl2 &&& 0xF0) + (scroll t s).offset.toNat < 256 ∧
      (scroll b (scroll t s)).mem ScrCtrl2
        = (s.mem ScrCtrl2 &&& 0xF0) + (scroll t s).offset.toNat ∧
      (∀ k, 3 ≤ k →
        ((scroll b (scroll t s)).mem ScrCtrl2).testBit k
          = ((scroll t s).mem ScrCtrl2).testBit k)) := by
  have h1 := scroll_top_ScrCtrl2 t s ht
  have h2 := land_F0 (s.mem ScrCtrl2)
  have hb2 : ¬ b < 10 := by omega
  refine ⟨h1, fun k hk => ?_, fun k h4 h8 => ?_, fun h0 h7 => ?_⟩
  · rw [h1, Nat.testBit_and, testBit_F0_low k hk, Bool.and_false]
  · rw [h1, Nat.testBit_and, testBit_F0_high k h4 h8, Bool.and_true]
  · have hr := scroll_offset_range t s h0 h7
    have hsum : (scroll b (scroll t s)).mem ScrCtrl2
        = (s.mem ScrCtrl2 &&& 0xF0) + (scroll t s).offset.toNat := by
      rw [scroll_bottom_ScrCtrl2 b _ hb2, h1, h2]
      omega
    refine ⟨by omega, hsum, fun k hk => ?_⟩
    rw [hsum, h1, h2]
    exact testBit_add_low _ _ k (by omega) hk

/-- C17, witness: top at line 0, bottom at line 241, with `0xC8` in screen control #2
before (bit 3 set, no scroll). -/
theorem C17_scroll_register_bits_witness :
    (0 < 10) ∧ (10 ≤ 241) ∧
    (scroll 0 (Scroller [65, 66, 67, 68, 0] 5 0xC000 (boot fun _ => 0xC8))).mem ScrCtrl2
      = (Scroller [65, 66, 67, 68, 0] 5 0xC000 (boot fun _ => 0xC8)).mem ScrCtrl2 &&& 0xF0 :=
  ⟨by decide, by decide,
    (C17_scroll_register_bits (Scroller [65, 66, 67, 68, 0] 5 0xC000 (boot fun _ => 0xC8))
      0 241 (by decide) (by decide)).1⟩

/-! ## The bottom row after a run -/

theorem run_row (ls : List Nat) (s : State) (hLen : 1 ≤ s.Len)
    (hn : s.nextchar < period s.Len) (j : Nat) (hj : j < 40) :
    (run ls s).mem (DEFAULT_SCREEN + 960 + j) =
      if 40 ≤ shiftCount ls s + j then
        s.Message.getD ((s.nextchar + (shiftCount ls s + j - 40)) % period s.Len) 0
      else s.mem (DEFAULT_SCREEN + 960 + (j + shiftCount ls s)) := by
  induction ls using List.reverseRecOn generalizing j with
  | nil =>
    have h : ¬ 40 ≤ shiftCount [] s + j := by simp only [shiftCount]; omega
    rw [if_neg h]
    rfl
  | append_singleton ls l ih =>
    rw [shiftCount_append, shiftCount, shiftCount, run_append, run_cons, run_nil]
    by_cases hs : isShift l (run ls s) = true
    · rw [hs]
      simp only [if_true, Nat.add_zero]
      by_cases h39 : j = 39
      · subst h39
        have e : DEFAULT_SCREEN + 960 + 39 = DEFAULT_SCREEN + 999 := rfl
        rw [e, scroll_shift_cell _ _ hs, run_Message, run_nextchar ls s hLen hn,
          if_pos (by omega)]
        have e2 : shiftCount ls s + 1 + 39 - 40 = shiftCount ls s := by omega
        rw [e2]
      · rw [scroll_shift_row _ _ hs j (by omega), Nat.add_assoc (DEFAULT_SCREEN + 960) j 1,
          ih (j + 1) (by omega)]
        have e1 : shiftCount ls s + (j + 1) = shiftCount ls s + 1 + j := by omega
        have e2 : j + 1 + shiftCount ls s = j + (shiftCount ls s + 1) := by omega
        rw [e1, e2]
    · rw [Bool.not_eq_true] at hs
      rw [hs]
      simp only [Bool.false_eq_true, if_false, Nat.add_zero]
      rw [scroll_noshift_cell _ _ hs _ (by simp only [DEFAULT_SCREEN, InterStat]; omega)
        (by simp only [DEFAULT_SCREEN, RasterLine1]; omega)
        (by simp only [DEFAULT_SCREEN, ScrCtrl2]; omega)]
      exact ih j hj

theorem row_from_boot (mem : Nat → Nat) (msg : List Nat) (lLen : Int) (v : Nat)
    (ls : List Nat) (hLen : 1 ≤ lLen - 1) (j : Nat) (hj : j < 40) :
    (run ls (Scroller msg lLen v (boot mem))).mem (DEFAULT_SCREEN + 960 + j) =
      if 40 ≤ shiftCount ls (Scroller msg lLen v (boot mem)) + j then
        msg.getD ((shiftCount ls (Scroller msg lLen v (boot mem)) + j - 40)
          % period (lLen - 1)) 0
      else 0x20 := by
  have hL := ctor_Len msg lLen v (boot mem) (by omega)
  have hn := ctor_boot_nextchar mem msg lLen v
  have hM := ctor_Message msg lLen v (boot mem)
  rw [run_row ls _ (by rw [hL]; exact hLen) (by rw [hL, hn]; exact period_pos _ hLen) j hj,
    hL, hn, hM, Nat.zero_add]
  by_cases h : 40 ≤ shiftCount ls (Scroller msg lLen v (boot mem)) + j
  · rw [if_pos h, if_pos h]
  · rw [if_neg h, if_neg h, Nat.add_assoc]
    exact ctor_screen msg lLen v (boot mem) _ (by omega)

theorem period_toNat (Len : Int) (h2 : Len ≤ 256) : period Len = Len.toNat := by
  unfold period; omega

theorem period_big (Len : Int) (h : 256 < Len) : period Len = 256 := by
  unfold period; omega

/-- C13.  For every message with `1 ≤ Len ≤ 256`, from the state right after
construction, after a run with `k` character-boundary events the bottom row holds the
window of `Message` scrolled in most recently: for every column `j` in 0..39, cell
`960 + j` is `Message[(k - 40 + j) mod Len]` when `k + j ≥ 40`, and the space code
`0x20` otherwise. -/
theorem C13_bottom_row_window (mem : Nat → Nat) (msg : List Nat) (lLen : Int) (v : Nat)
    (ls : List Nat) (j : Nat) (h1 : 1 ≤ lLen - 1) (h256 : lLen - 1 ≤ 256) (hj : j < 40) :
    (run ls (Scroller msg lLen v (boot mem))).mem (DEFAULT_SCREEN + 960 + j) =
      if 40 ≤ shiftCount ls (Scroller msg lLen v (boot mem)) + j then
        msg.getD ((shiftCount ls (Scroller msg lLen v (boot mem)) + j - 40)
          % (lLen - 1).toNat) 0
      else 0x20 := by
  rw [row_from_boot mem msg lLen v ls h1 j hj, period_toNat _ h256]

/-- C13, witness: with the message "ABCD", after the first top invocation the last
cell of the bottom row holds 'A' and the cell before it is still a space. -/
theorem C13_bottom_row_window_witness :
    (1 : Int) ≤ 5 - 1 ∧ (5 : Int) - 1 ≤ 256 ∧ 39 < 40 ∧
    (run [0] (Scroller [65, 66, 67, 68, 0] 5 0xC000 (boot fun _ => 0))).mem
        (DEFAULT_SCREEN + 960 + 39) = 65 ∧
    (run [0] (Scroller [65, 66, 67, 68, 0] 5 0xC000 (boot fun _ => 0))).mem
        (DEFAULT_SCREEN + 960 + 38) = 0x20 := by
  have h39 := C13_bottom_row_window (fun _ => 0) [65, 66, 67, 68, 0] 5 0xC000 [0] 39
    (by decide) (by decide) (by decide)
  have h38 := C13_bottom_row_window (fun _ => 0) [65, 66, 67, 68, 0] 5 0xC000 [0] 38
    (by decide) (by decide) (by decide)
  rw [shiftCount_from_boot] at h39 h38
  exact ⟨by decide, by decide, by decide, h39, h38⟩

/-- C14.  Because `offset` starts at 0, the first top invocation after construction is
a character-boundary event; after a run from the constructed state that holds `t` top
invocations, with bottom invocations interleaved in any way, exactly `⌈t / 8⌉` such
events have occurred, `offset = (8 - t mod 8) mod 8` when `t ≥ 1`, and
`nextchar = ⌈t / 8⌉ mod Len` when `1 ≤ Len ≤ 256`. -/
theorem C14_events_per_top (mem : Nat → Nat) (msg : List Nat) (lLen : Int) (v : Nat)
    (ls : List Nat) :
    (∀ l, l < 10 → isShift l (Scroller msg lLen v (boot mem)) = true) ∧
    shiftCount ls (Scroller msg lLen v (boot mem)) = (tops ls + 7) / 8 ∧
    (1 ≤ tops ls →
      (run ls (Scroller msg lLen v (boot mem))).offset = (8 - (tops ls : Int) % 8) % 8) ∧
    (1 ≤ lLen - 1 → lLen - 1 ≤ 256 →
      ((run ls (Scroller msg lLen v (boot mem))).nextchar : Int)
        = (((tops ls + 7) / 8 : Nat) : Int) % (lLen - 1)) := by
  have ho := ctor_boot_offset mem msg lLen v
  refine ⟨fun l hl => ?_, shiftCount_from_boot mem msg lLen v ls, fun _ => ?_, fun h1 h2 => ?_⟩
  · exact (isShift_iff l _ (by omega) (by omega)).2 ⟨hl, ho⟩
  · rw [run_offset ls _ (by omega) (by omega), ho]
    omega
  · rw [nextchar_from_boot mem msg lLen v ls h1, Int.natCast_mod, period_cast _ h1 h2]

/-- C14, witness: nine top invocations with bottom invocations in between hold two
character-boundary events. -/
theorem C14_events_per_top_witness :
    shiftCount [0, 241, 0, 241, 0, 241, 0, 241, 0, 241, 0, 241, 0, 241, 0, 241, 0]
      (Scroller [65, 66, 67, 68, 0] 5 0xC000 (boot fun _ => 0)) = 2 := by
  have h := (C14_events_per_top (fun _ => 0) [65, 66, 67, 68, 0] 5 0xC000
    [0, 241, 0, 241, 0, 241, 0, 241, 0, 241, 0, 241, 0, 241, 0, 241, 0]).2.1
  rw [h]
  decide

/-! ## Messages longer than 256 characters, and the empty cycle -/

theorem scroll_nextchar_lt (l : Nat) (s : State) (h : 1 ≤ s.Len)
    (hn : s.nextchar < period s.Len) : (scroll l s).nextchar < period s.Len := by
  have e := run_nextchar [l] s h hn
  rw [run_cons, run_nil] at e
  rw [e]
  exact Nat.mod_lt _ (period_pos _ h)

theorem run_fetches_lt_period (ls : List Nat) (s : State) (h : 1 ≤ s.Len)
    (hn : s.nextchar < period s.Len) (hf : ∀ i ∈ fetches s.trace, i < period s.Len) :
    ∀ i ∈ fetches (run ls s).trace, i < period s.Len := by
  induction ls generalizing s with
  | nil => exact hf
  | cons l ls ih =>
    have hL := scroll_Len l s
    rw [run_cons, ← hL]
    apply ih _ (by rw [hL]; exact h) (by rw [hL]; exact scroll_nextchar_lt l s h hn)
    intro i hi
    rw [scroll_fetches] at hi
    rw [hL]
    split at hi
    · rcases List.mem_cons.1 hi with h1 | h1
      · rw [h1]; exact hn
      · exact hf i h1
    · exact hf i hi

theorem scroll_nextchar_zero (l : Nat) (s : State) (h : s.Len ≤ 0) (hn : s.nextchar = 0) :
    (scroll l s).nextchar = 0 := by
  rw [scroll_nextchar]
  split
  · rw [if_pos (by omega)]
  · exact hn

theorem run_nextchar_zero (ls : List Nat) (s : State) (h : s.Len ≤ 0) (hn : s.nextchar = 0) :
    (run ls s).nextchar = 0 := by
  induction ls generalizing s with
  | nil => exact hn
  | cons l ls ih =>
    rw [run_cons]
    exact ih _ (by rw [scroll_Len]; exact h) (scroll_nextchar_zero l s h hn)

theorem run_fetches_zero (ls : List Nat) (s : State) (h : s.Len ≤ 0) (hn : s.nextchar = 0)
    (hf : ∀ i ∈ fetches s.trace, i = 0) : ∀ i ∈ fetches (run ls s).trace, i = 0 := by
  induction ls generalizing s with
  | nil => exact hf
  | cons l ls ih =>
    rw [run_cons]
    apply ih _ (by rw [scroll_Len]; exact h) (scroll_nextchar_zero l s h hn)
    intro i hi
    rw [scroll_fetches] at hi
    split at hi
    · rcases List.mem_cons.1 hi with h1 | h1
      · rw [h1]; exact hn
      · exact hf i h1
    · exact hf i hi

/-- C15.  `nextchar` is an 8-bit counter compared with the `int` `Len`.  For every
`Len > 256`, from the state right after construction: `nextchar` is the number of
character-boundary events modulo 256; in each such event `nextchar` becomes
`(nextchar + 1) mod 256`, so 255 is followed by 0, and the test `nextchar >= Len`
fails; every index at which `Message` is read is below 256; the bottom row holds
`Message[(k - 40 + j) mod 256]` in column `j` after `k` events (a space while
`k + j < 40`), so the displayed text repeats after 256 events. -/
theorem C15_long_message_period_256 (mem : Nat → Nat) (msg : List Nat) (lLen : Int) (v : Nat)
    (ls : List Nat) (hLen : 256 < lLen - 1) :
    (run ls (Scroller msg lLen v (boot mem))).nextchar
      = shiftCount ls (Scroller msg lLen v (boot mem)) % 256 ∧
    (∀ l, isShift l (run ls (Scroller msg lLen v (boot mem))) = true →
      (scroll l (run ls (Scroller msg lLen v (boot mem)))).nextchar
        = ((run ls (Scroller msg lLen v (boot mem))).nextchar + 1) % 256 ∧
      ¬ (lLen - 1 ≤
        ((((run ls (Scroller msg lLen v (boot mem))).nextchar + 1) % 256 : Nat) : Int))) ∧
    (∀ i ∈ fetches (run ls (Scroller msg lLen v (boot mem))).trace, i < 256) ∧
    (∀ j, j < 40 →
      (run ls (Scroller msg lLen v (boot mem))).mem (DEFAULT_SCREEN + 960 + j) =
        if 40 ≤ shiftCount ls (Scroller msg lLen v (boot mem)) + j then
          msg.getD ((shiftCount ls (Scroller msg lLen v (boot mem)) + j - 40) % 256) 0
        else 0x20) ∧
    (∀ ms, shiftCount ms (Scroller msg lLen v (boot mem))
        = shiftCount ls (Scroller msg lLen v (boot mem)) + 256 →
      40 ≤ shiftCount ls (Scroller msg lLen v (boot mem)) →
      ∀ j, j < 40 →
        (run ms (Scroller msg lLen v (boot mem))).mem (DEFAULT_SCREEN + 960 + j)
          = (run ls (Scroller msg lLen v (boot mem))).mem (DEFAULT_SCREEN + 960 + j)) := by
  have h1 : 1 ≤ lLen - 1 := by omega
  have hp := period_big (lLen - 1) hLen
  have hL := ctor_Len msg lLen v (boot mem) (by omega)
  have hn := ctor_boot_nextchar mem msg lLen v
  have hrow : ∀ (ks : List Nat) (j : Nat), j < 40 →
      (run ks (Scroller msg lLen v (boot mem))).mem (DEFAULT_SCREEN + 960 + j) =
        if 40 ≤ shiftCount ks (Scroller msg lLen v (boot mem)) + j then
          msg.getD ((shiftCount ks (Scroller msg lLen v (boot mem)) + j - 40) % 256) 0
        else 0x20 := by
    intro ks j hj
    rw [row_from_boot mem msg lLen v ks h1 j hj, hp]
  refine ⟨?_, fun l hs => ⟨?_, ?_⟩, ?_, fun j hj => hrow ls j hj, fun ms hms h40 j hj => ?_⟩
  · rw [run_nextchar ls _ (by rw [hL]; exact h1) (by rw [hL, hn, hp]; decide), hL, hn, hp,
      Nat.zero_add]
  · have hlt : ((((run ls (Scroller msg lLen v (boot mem))).nextchar + 1) % 256 : Nat) : Int)
        < lLen - 1 := by
      have := Nat.mod_lt ((run ls (Scroller msg lLen v (boot mem))).nextchar + 1)
        (show 0 < 256 by decide)
      omega
    rw [scroll_nextchar, hs, run_Len, hL]
    simp only [if_true]
    rw [if_neg (by omega)]
  · have := Nat.mod_lt ((run ls (Scroller msg lLen v (boot mem))).nextchar + 1)
      (show 0 < 256 by decide)
    omega
  · have h := run_fetches_lt_period ls (Scroller msg lLen v (boot mem))
      (by rw [hL]; exact h1) (by rw [hL, hn, hp]; decide)
      (by rw [ctor_fetches]; intro i hi; cases hi)
    rw [hL, hp] at h
    exact h
  · rw [hrow ms j hj, hrow ls j hj, hms, if_pos (by omega), if_pos (by omega)]
    have e : (shiftCount ls (Scroller msg lLen v (boot mem)) + 256 + j - 40) % 256
        = (shiftCount ls (Scroller msg lLen v (boot mem)) + j - 40) % 256 := by omega
    rw [e]

/-- C15, witness: a message of 300 characters; after 2048 top invocations (256
character-boundary events) the cursor is back at 0. -/
theorem C15_long_message_period_256_witness :
    (256 : Int) < 301 - 1 ∧
    (run (List.replicate 2048 0)
        (Scroller (List.replicate 301 1) 301 0xC000 (boot fun _ => 0))).nextchar = 0 := by
  have h := (C15_long_message_period_256 (fun _ => 0) (List.replicate 301 1) 301 0xC000
    (List.replicate 2048 0) (by decide)).1
  rw [shiftCount_from_boot, tops_replicate_top 2048 0 (by decide)] at h
  exact ⟨by decide, h⟩

/-- The constructor at `lLen = INT_MIN`: the subtraction wraps and `Len` is `INT_MAX`. -/
theorem ctor_Len_INT_MIN (msg : List Nat) (v : Nat) (s : State) :
    (Scroller msg (-32768) v s).Len = 32767 := by
  rw [ctor_Len_raw]; decide

/-- C18.  When the constructor is called with an `int` `lLen ≤ 1` for which `lLen - 1`
does not overflow (`INT_MIN < lLen`), so that `Len = lLen - 1 ≤ 0`, from the state
right after construction: `nextchar` is 0 after every run, hence after every
character-boundary event; every such event reads `Message` at index 0 and stores
`Message[0]` in cell 999; and `offset` stays within 0..7.  Every value `Len ≤ 0` of the
16-bit `int` arises this way. -/
theorem C18_nonpositive_len (mem : Nat → Nat) (msg : List Nat) (lLen : Int) (v : Nat)
    (ls : List Nat) (hmin : -32768 < lLen) (hLen : lLen ≤ 1) :
    (run ls (Scroller msg lLen v (boot mem))).Len = lLen - 1 ∧
    (run ls (Scroller msg lLen v (boot mem))).Len ≤ 0 ∧
    (run ls (Scroller msg lLen v (boot mem))).nextchar = 0 ∧
    0 ≤ (run ls (Scroller msg lLen v (boot mem))).offset ∧
    (run ls (Scroller msg lLen v (boot mem))).offset ≤ 7 ∧
    (∀ i ∈ fetches (run ls (Scroller msg lLen v (boot mem))).trace, i = 0) ∧
    (∀ l, isShift l (run ls (Scroller msg lLen v (boot mem))) = true →
      (scroll l (run ls (Scroller msg lLen v (boot mem)))).nextchar = 0 ∧
      fetches (scroll l (run ls (Scroller msg lLen v (boot mem)))).trace
        = 0 :: fetches (run ls (Scroller msg lLen v (boot mem))).trace ∧
      (scroll l (run ls (Scroller msg lLen v (boot mem)))).mem (DEFAULT_SCREEN + 999)
        = msg.getD 0 0) := by
  have hE := ctor_Len msg lLen v (boot mem) hmin
  have hL : (Scroller msg lLen v (boot mem)).Len ≤ 0 := by rw [hE]; omega
  have hn := ctor_boot_nextchar mem msg lLen v
  have ho := ctor_boot_offset mem msg lLen v
  have hM := ctor_Message msg lLen v (boot mem)
  have hrE : (run ls (Scroller msg lLen v (boot mem))).Len = lLen - 1 := by rw [run_Len, hE]
  have hrL : (run ls (Scroller msg lLen v (boot mem))).Len ≤ 0 := by rw [run_Len]; exact hL
  have hrn := run_nextchar_zero ls _ hL hn
  have hr := run_offset_range ls (Scroller msg lLen v (boot mem)) (by omega) (by omega)
  refine ⟨hrE, hrL, hrn, hr.1, hr.2, ?_, fun l hs => ⟨?_, ?_, ?_⟩⟩
  · exact run_fetches_zero ls _ hL hn (by rw [ctor_fetches]; intro i hi; cases hi)
  · exact scroll_nextchar_zero l _ hrL hrn
  · rw [scroll_fetches, hs, hrn]; rfl
  · rw [scroll_shift_cell _ _ hs, run_Message, hM, hrn]

/-- C18, witness: the constructor called with `lLen = 1` on a buffer that holds only
the terminator; after nine top invocations the cursor is 0. -/
theorem C18_nonpositive_len_witness :
    (-32768 : Int) < 1 ∧ (1 : Int) ≤ 1 ∧
    (run (List.replicate 9 0) (Scroller [0] 1 0xC000 (boot fun _ => 0))).nextchar = 0 :=
  ⟨by decide, by decide,
    (C18_nonpositive_len (fun _ => 0) [0] 1 0xC000 (List.replicate 9 0) (by decide)
      (by decide)).2.2.1⟩

end C64
